import Mathlib

/-!
Verification of the core text-editing engine of the `moded` editor:
a relocatable-gap array (`GapBuffer`), a line-indexed text store
(`TextBuffer`) with UTF-8 iteration, the vim-style motion grammar and
dispatch, the search subsystem and the command bar.

The Rust sources are embedded shallowly: `Vec<T>` backing storage becomes a
`List T` whose length plays the role of the vector's capacity (the source
always keeps `len == capacity` via `set_len(capacity)`), machine integers
become `Nat` (or `Int` where the source uses `isize`), partial reads become
total functions with an explicitly irrelevant default, and iterator loops
become fuelled recursions (every loop in the source consumes at least one
element per step, so any fuel at least the buffer length is exact).
-/

namespace Moded

/-- `copy_within src..src+n -> dst` on a list (memmove semantics). -/
def moveBytes {T : Type} (l : List T) (src dst n : Nat) : List T :=
  l.take dst ++ (l.drop src).take n ++ l.drop (dst + n)

/-- Overwrite the slice starting at `i` with `d` (used for
`data[gs..gs+len].copy_from_slice(data)`). -/
def writeSlice {T : Type} (l : List T) (i : Nat) (d : List T) : List T :=
  l.take i ++ d ++ l.drop (i + d.length)

/-- In-place `f` over the half-open index range `[s, e)` of a list
(`for val in &mut data[s..e]`). -/
def mapRange (l : List Nat) (s e : Nat) (f : Nat → Nat) : List Nat :=
  l.mapIdx (fun i x => if s ≤ i ∧ i < e then f x else x)

/--
The relocatable gap array of `gap_buffer.rs`.  `data` is the raw backing
storage (including the gap's junk contents); `gap_start`/`gap_end` bound the
gap.  Logical contents are everything outside `[gap_start, gap_end)`.
-/
structure GapBuffer (T : Type) where
  data : List T
  gap_start : Nat
  gap_end : Nat
deriving Repr, DecidableEq

namespace GapBuffer

variable {T : Type}

/-- Structural invariant: the gap bounds are ordered and inside the storage. -/
def wf (gb : GapBuffer T) : Prop :=
  gb.gap_start ≤ gb.gap_end ∧ gb.gap_end ≤ gb.data.length

instance (gb : GapBuffer T) : Decidable gb.wf := by
  unfold wf; infer_instance

/-- The logical element sequence: storage with the gap cut out. -/
def logical (gb : GapBuffer T) : List T :=
  gb.data.take gb.gap_start ++ gb.data.drop gb.gap_end

/-- `GapBuffer::new` — `to_vec()` allocates exactly `len` elements, so the
fresh buffer has an empty gap at the end of storage. -/
def new (v : List T) : GapBuffer T :=
  ⟨v, v.length, v.length⟩

/-- `GapBuffer::len`. -/
def len (gb : GapBuffer T) : Nat :=
  gb.data.length - (gb.gap_end - gb.gap_start)

/-- The reallocation step shared by `insert` and `push_back`: `Vec::reserve`
grows amortized to `max(2*cap, cap + additional)` (Rust additionally clamps
tiny allocations upward, which only adds unobservable spare gap space), the
new tail is junk (`default`), and the post-gap span is moved to the end. -/
def grow [Inhabited T] (gb : GapBuffer T) (addl : Nat) : GapBuffer T :=
  let oldLen := gb.data.length
  let newCap := max (2 * oldLen) (oldLen + addl)
  let addedSize := newCap - oldLen
  let data := gb.data ++ List.replicate addedSize default
  let data :=
    if gb.gap_end > oldLen then
      moveBytes data gb.gap_end (gb.gap_end + addedSize) (gb.gap_end - oldLen)
    else
      moveBytes data gb.gap_end (gb.gap_end + addedSize) (oldLen - gb.gap_end)
  { data := data, gap_start := gb.gap_start, gap_end := gb.gap_end + addedSize }

/-- `GapBuffer::insert`. -/
def insert [Inhabited T] (gb : GapBuffer T) (index : Nat) (d : List T) : GapBuffer T :=
  let gb := if gb.gap_end - gb.gap_start < d.length then gb.grow d.length else gb
  let gapSize := gb.gap_end - gb.gap_start
  if gb.gap_start = index then
    { gb with data := writeSlice gb.data gb.gap_start d,
              gap_start := gb.gap_start + d.length }
  else
    let data :=
      if index > gb.gap_start then
        moveBytes gb.data gb.gap_end gb.gap_start (index - gb.gap_start)
      else
        moveBytes gb.data index (index + gapSize) (gb.gap_start - index)
    { data := writeSlice data index d,
      gap_start := index + d.length,
      gap_end := index + gapSize }

/-- `GapBuffer::remove`. -/
def remove (gb : GapBuffer T) (frm length : Nat) : GapBuffer T :=
  let gapSize := gb.gap_end - gb.gap_start
  if gapSize = 0 then
    { gb with gap_start := frm, gap_end := frm + length }
  else
    let index := if frm < gb.gap_start then frm else frm + gapSize
    if index = gb.gap_end then
      { gb with gap_end := gb.gap_end + length }
    else if index + length = gb.gap_start then
      { gb with gap_start := index }
    else if index < gb.gap_start ∧ index + length > gb.gap_start then
      { gb with gap_start := index,
                gap_end := gb.gap_end + (length - (gb.gap_start - index)) }
    else if index < gb.gap_start then
      { gb with data := moveBytes gb.data (index + length) index (gb.gap_start - index - length),
                gap_start := index + (gb.gap_start - index - length) }
    else
      let gap := index - gb.gap_end
      { gb with data := moveBytes gb.data gb.gap_end gb.gap_start gap,
                gap_start := gb.gap_start + gap,
                gap_end := index + length }

/-- `GapBuffer::get_one` (the source indexes raw storage; out-of-range
reads, which panic in Rust, return `default`). -/
def getOne [Inhabited T] (gb : GapBuffer T) (pos : Nat) : T :=
  if pos < gb.gap_start then gb.data.getD pos default
  else gb.data.getD (pos + (gb.gap_end - gb.gap_start)) default

/-- `GapBuffer::get_by_range` (`data[a..b]` is `(take b).drop a`). -/
def getByRange (gb : GapBuffer T) (s e : Nat) : List T :=
  if e < gb.gap_start then
    (gb.data.take e).drop s
  else if s ≥ gb.gap_start then
    (gb.data.take (e + (gb.gap_end - gb.gap_start))).drop (s + (gb.gap_end - gb.gap_start))
  else
    (gb.data.take gb.gap_start).drop s ++
      (gb.data.take (e + (gb.gap_end - gb.gap_start))).drop gb.gap_end

/-- `GapBuffer::get_to_end`. -/
def getToEnd (gb : GapBuffer T) (s : Nat) : List T :=
  if s ≥ gb.gap_start then gb.data.drop (s + (gb.gap_end - gb.gap_start))
  else (gb.data.take gb.gap_start).drop s ++ gb.data.drop gb.gap_end

/-- `GapBuffer::<usize>::increment_range_by` over logical range `[s, e)`. -/
def incrementRangeBy (gb : GapBuffer Nat) (s e d : Nat) : GapBuffer Nat :=
  if e < gb.gap_start then
    { gb with data := mapRange gb.data s e (· + d) }
  else if s ≥ gb.gap_start then
    let g := gb.gap_end - gb.gap_start
    { gb with data := mapRange gb.data (s + g) (e + g) (· + d) }
  else
    let g := gb.gap_end - gb.gap_start
    { gb with data := mapRange (mapRange gb.data s gb.gap_start (· + d)) gb.gap_end (e + g) (· + d) }

/-- `GapBuffer::<usize>::decrement_range_by` over logical range `[s, e)`. -/
def decrementRangeBy (gb : GapBuffer Nat) (s e d : Nat) : GapBuffer Nat :=
  if e < gb.gap_start then
    { gb with data := mapRange gb.data s e (· - d) }
  else if s ≥ gb.gap_start then
    let g := gb.gap_end - gb.gap_start
    { gb with data := mapRange gb.data (s + g) (e + g) (· - d) }
  else
    let g := gb.gap_end - gb.gap_start
    { gb with data := mapRange (mapRange gb.data s gb.gap_start (· - d)) gb.gap_end (e + g) (· - d) }

/-- `GapBufferIter::next`: the iterator state is the logical index reached. -/
def iterNext [Inhabited T] (gb : GapBuffer T) (i : Nat) : Option (T × Nat) :=
  let g := gb.gap_end - gb.gap_start
  if i ≥ gb.data.length - g then none
  else if i + 1 ≤ gb.gap_start then some (gb.data.getD i default, i + 1)
  else some (gb.data.getD (i + g) default, i + 1)

/-- `GapBufferRevIter::next`: the state is one past the next logical index
to yield (`into_rev_iterator(index)` starts the state at `index + 1`). -/
def revNext [Inhabited T] (gb : GapBuffer T) (i : Nat) : Option (T × Nat) :=
  let g := gb.gap_end - gb.gap_start
  if i = 0 then none
  else if i - 1 < gb.gap_start then some (gb.data.getD (i - 1) default, i - 1)
  else some (gb.data.getD (i - 1 + g) default, i - 1)

end GapBuffer

/-!
UTF-8 iteration (`Utf8Iter::next` / `Utf8RevIter::next`).  The decode logic
is written once, generically over a byte source `next : σ → Option (Nat × σ)`,
and instantiated both for the gap-buffer iterators and for plain byte lists
(the latter is what the refinement lemmas reason about).  The source's
`unwrap_unchecked` on continuation reads (undefined behaviour when the
stream runs dry) is modelled as reading byte `0` and leaving the state
unchanged; the well-formedness preconditions of every theorem below keep
that case unreachable.  `char::from_u32_unchecked` becomes `Char.ofNat`.
-/

/-- Generic translation of `Utf8Iter::next` (forward decode). -/
def utf8NextG {σ : Type} (nxt : σ → Option (Nat × σ)) (s : σ) : Option (Char × σ) :=
  match nxt s with
  | none => none
  | some (b0, s) =>
    if b0 < 0x80 then some (Char.ofNat b0, s)
    else if b0 &&& 0xF0 = 0xC0 ∨ b0 &&& 0xF0 = 0xE0 ∨ b0 &&& 0xF0 = 0xF0 then
      let len : Nat := if b0 &&& 0xF0 = 0xC0 then 2 else if b0 &&& 0xF0 = 0xE0 then 3 else 4
      let mask : Nat := if len = 2 then 0x1F else if len = 3 then 0x0F else 0x07
      let res := (b0 &&& mask) <<< 6
      let p1 := (nxt s).getD (0, s)
      let res := res ||| (p1.1 &&& 0x3F)
      if len > 2 then
        let res := res <<< 6
        let p2 := (nxt p1.2).getD (0, p1.2)
        let res := res ||| (p2.1 &&& 0x3F)
        if len > 3 then
          let res := res <<< 6
          let p3 := (nxt p2.2).getD (0, p2.2)
          some (Char.ofNat (res ||| (p3.1 &&& 0x3F)), p3.2)
        else some (Char.ofNat res, p2.2)
      else some (Char.ofNat res, p1.2)
    else none

/-- Generic translation of `Utf8RevIter::next` (backward decode, reading
continuation bytes right to left). -/
def utf8RevNextG {σ : Type} (nxt : σ → Option (Nat × σ)) (s : σ) : Option (Char × σ) :=
  match nxt s with
  | none => none
  | some (bL, s) =>
    if bL < 0x80 then some (Char.ofNat bL, s)
    else
      let res := bL &&& 0x3F
      let p1 := (nxt s).getD (0, s)
      if p1.1 &&& 0xC0 = 0xC0 then
        some (Char.ofNat (res ||| ((p1.1 &&& 0x1F) <<< 6)), p1.2)
      else
        let res := res ||| ((p1.1 &&& 0x3F) <<< 6)
        let p2 := (nxt p1.2).getD (0, p1.2)
        if p2.1 &&& 0xE0 = 0xE0 then
          some (Char.ofNat (res ||| ((p2.1 &&& 0x0F) <<< 12)), p2.2)
        else
          let res := res ||| ((p2.1 &&& 0x3F) <<< 12)
          let p3 := (nxt p2.2).getD (0, p2.2)
          some (Char.ofNat (res ||| ((p3.1 &&& 0x07) <<< 18)), p3.2)

/-- Forward UTF-8 step over a gap buffer of bytes, state = logical index. -/
def utf8Next (gb : GapBuffer Nat) (i : Nat) : Option (Char × Nat) :=
  utf8NextG gb.iterNext i

/-- Backward UTF-8 step over a gap buffer of bytes. -/
def utf8RevNext (gb : GapBuffer Nat) (i : Nat) : Option (Char × Nat) :=
  utf8RevNextG gb.revNext i

/-- Forward UTF-8 step over a plain byte list (the refinement image of
`utf8Next`). -/
def utf8NextL (l : List Nat) : Option (Char × List Nat) :=
  utf8NextG (fun l => match l with | [] => none | b :: t => some (b, t)) l

/-- The Utf8Iter skip loop of `TextBuffer::utf8_iter`: `n` calls to `next`,
each ignored failure leaving the iterator state in place. -/
def skipChars (gb : GapBuffer Nat) (i : Nat) : Nat → Nat
  | 0 => i
  | n + 1 =>
    match utf8Next gb i with
    | none => skipChars gb i n
    | some (_, j) => skipChars gb j n

/-- The Utf8RevIter skip loop of `TextBuffer::utf8_rev_iter`. -/
def revSkipChars (gb : GapBuffer Nat) (i : Nat) : Nat → Nat
  | 0 => i
  | n + 1 =>
    match utf8RevNext gb i with
    | none => revSkipChars gb i n
    | some (_, j) => revSkipChars gb j n

/-- Collect at most `fuel` decoded characters going forward (a Rust `for`
loop over `Utf8Iter` stops at the first `None`). -/
def collectFwd (gb : GapBuffer Nat) (i : Nat) : Nat → List Char
  | 0 => []
  | fuel + 1 =>
    match utf8Next gb i with
    | none => []
    | some (c, j) => c :: collectFwd gb j fuel

/-- Collect at most `fuel` decoded characters going backward. -/
def collectRev (gb : GapBuffer Nat) (i : Nat) : Nat → List Char
  | 0 => []
  | fuel + 1 =>
    match utf8RevNext gb i with
    | none => []
    | some (c, j) => c :: collectRev gb j fuel

/-!  The line separator and the line-indexed text store (`TextBuffer`). -/

inductive LineSeparator where
  | LF
  | CRLF
deriving DecidableEq, Repr

/-- `LineSeparator as usize` (via its discriminants 1 / 2). -/
def LineSeparator.len : LineSeparator → Nat
  | .LF => 1
  | .CRLF => 2

/-- `LineSeparator::as_str().as_bytes()`. -/
def LineSeparator.bytes : LineSeparator → List Nat
  | .LF => [10]
  | .CRLF => [13, 10]

/-- Zero-indexed (line, column) position, column in decoded characters. -/
structure LinePos where
  line : Nat
  col : Nat
deriving DecidableEq, Repr

/-- The source's `PartialOrd`/`Ord`: line first, then column. -/
def LinePos.le (a b : LinePos) : Prop :=
  a.line < b.line ∨ (a.line = b.line ∧ a.col ≤ b.col)

instance : LE LinePos := ⟨LinePos.le⟩

instance : DecidableRel (· ≤ · : LinePos → LinePos → Prop) := fun a b =>
  decidable_of_iff (a.line < b.line ∨ (a.line = b.line ∧ a.col ≤ b.col)) Iff.rfl

def LinePos.lt (a b : LinePos) : Prop :=
  a.line < b.line ∨ (a.line = b.line ∧ a.col < b.col)

instance : LT LinePos := ⟨LinePos.lt⟩

instance : DecidableRel (· < · : LinePos → LinePos → Prop) := fun a b =>
  decidable_of_iff (a.line < b.line ∨ (a.line = b.line ∧ a.col < b.col)) Iff.rfl

/-- `min` on `LinePos`, as derived from the source's total order. -/
def LinePos.minP (a b : LinePos) : LinePos := if a ≤ b then a else b

/-- `max` on `LinePos`. -/
def LinePos.maxP (a b : LinePos) : LinePos := if a ≤ b then b else a

/-- `LineView`: the buffer's full content as one or two contiguous slices. -/
inductive LineView where
  | Contiguous (s : List Nat)
  | Parts (s1 s2 : List Nat)
deriving DecidableEq, Repr

/-- The line-indexed text store: raw bytes, line-start offsets, separator. -/
structure TextBuffer where
  chars : GapBuffer Nat
  lines : GapBuffer Nat
  line_sep : LineSeparator
deriving Repr, DecidableEq

/-- Does the byte string contain the two-byte sequence `\r\n`?
(`st.contains("\r\n")` in `from_data`). -/
def hasCrlf : List Nat → Bool
  | [] => false
  | [_] => false
  | a :: b :: t => (a = 13 && b = 10) || hasCrlf (b :: t)

/-- `str::split_inclusive('\n')` on bytes: segments each keeping their
terminating `\n`; no empty trailing segment. -/
def splitInclGo : List Nat → List Nat → List (List Nat)
  | [], acc => if acc.isEmpty then [] else [acc.reverse]
  | b :: t, acc =>
    if b = 10 then (acc.reverse ++ [10]) :: splitInclGo t []
    else splitInclGo t (b :: acc)

/-- `str::lines()` on bytes: split inclusive on `\n`, then strip a trailing
`\n` and, after it, a trailing `\r` from each segment. -/
def rustLines (l : List Nat) : List (List Nat) :=
  (splitInclGo l []).map (fun seg =>
    match seg.getLast? with
    | some 10 =>
      let seg := seg.dropLast
      match seg.getLast? with
      | some 13 => seg.dropLast
      | _ => seg
    | _ => seg)

/-- The `from_data` loop computing initial line starts. -/
def startsOfLines (sepLen : Nat) : Nat → List (List Nat) → List Nat
  | _, [] => []
  | start, l :: t => start :: startsOfLines sepLen (start + l.length + sepLen) t

namespace TextBuffer

/-- `TextBuffer::from_data`. -/
def fromData (c : List Nat) : TextBuffer :=
  let sep := if hasCrlf c then LineSeparator.CRLF else LineSeparator.LF
  { chars := GapBuffer.new c,
    lines := GapBuffer.new (startsOfLines sep.len 0 (rustLines c)),
    line_sep := sep }

/-- `TextBuffer::total_lines`. -/
def totalLines (tb : TextBuffer) : Nat := tb.lines.len

/-- `TextBuffer::raw_line` (kept as raw bytes; the source converts to
`String` only to print or to test a byte-level suffix). -/
def rawLine (tb : TextBuffer) (line : Nat) : List Nat :=
  let start := tb.lines.getOne line
  if line < tb.totalLines - 1 then tb.chars.getByRange start (tb.lines.getOne (line + 1))
  else tb.chars.getToEnd start

/-- `TextBuffer::raw_line_len`. -/
def rawLineLen (tb : TextBuffer) (line : Nat) : Nat :=
  if line + 1 < tb.totalLines then tb.lines.getOne (line + 1) - tb.lines.getOne line
  else (tb.chars.getToEnd (tb.lines.getOne line)).length

/-- `TextBuffer::utf8_iter`: the returned iterator state (a logical byte
index), after skipping `pos.col` characters from the line start. -/
def utf8IterFrom (tb : TextBuffer) (pos : LinePos) : Nat :=
  skipChars tb.chars (tb.lines.getOne pos.line) pos.col

/-- The loop body of `TextBuffer::line_len`: count decoded characters until
a newline (backing off one for the `\r` of a CRLF separator) or stream end.
The source decrements a `usize`; well-formed buffers never reach the
decrement with a zero count, and `Nat` subtraction models the release
behaviour at zero. -/
def lineLenLoop (tb : TextBuffer) (i acc : Nat) : Nat → Nat
  | 0 => acc
  | fuel + 1 =>
    match utf8Next tb.chars i with
    | none => acc
    | some (c, j) =>
      if c = '\n' then (if tb.line_sep = LineSeparator.CRLF then acc - 1 else acc)
      else lineLenLoop tb j (acc + 1) fuel

/-- `TextBuffer::line_len`. -/
def lineLen (tb : TextBuffer) (line : Nat) : Nat :=
  lineLenLoop tb (tb.utf8IterFrom ⟨line, 0⟩) 0 (tb.chars.data.length + 1)

/-- The loop of `screen_index_to_bytes_index`: walk decoded characters,
summing `len_utf8` until `target` characters were consumed. -/
def colToByteLoop (tb : TextBuffer) (i charIdx target acc : Nat) : Nat → Nat
  | 0 => acc
  | fuel + 1 =>
    match utf8Next tb.chars i with
    | none => acc
    | some (c, j) =>
      if charIdx ≥ target then acc
      else colToByteLoop tb j (charIdx + 1) target (acc + c.utf8Size) fuel

/-- `TextBuffer::screen_index_to_bytes_index`. -/
def screenIndexToBytesIndex (tb : TextBuffer) (line index : Nat) : Nat :=
  colToByteLoop tb (tb.utf8IterFrom ⟨line, 0⟩) 0 index 0 (tb.chars.data.length + 1)

/-- `TextBuffer::insert_into_line`. -/
def insertIntoLine (tb : TextBuffer) (line index : Nat) (d : List Nat) : TextBuffer :=
  let start := tb.lines.getOne line
  let actualBytes := tb.screenIndexToBytesIndex line index
  { tb with chars := tb.chars.insert (start + actualBytes) d,
            lines := tb.lines.incrementRangeBy (line + 1) tb.lines.len d.length }

/-- Byte-level `ends_with` (`raw_line(...).ends_with(sep)`). -/
def endsWithSep (l : List Nat) (sep : List Nat) : Bool :=
  decide (l.drop (l.length - sep.length) = sep) && decide (sep.length ≤ l.length)

/-- `TextBuffer::insert_empty_line` (the two chained mutations of the
append path recompute `raw_line_len` between steps, exactly as the source
does). -/
def insertEmptyLine (tb : TextBuffer) (row : Nat) : TextBuffer :=
  if row < tb.totalLines then
    let index := tb.lines.getOne row
    let tb := { tb with chars := tb.chars.insert index tb.line_sep.bytes }
    let tb := { tb with lines := tb.lines.insert row [index] }
    { tb with lines := tb.lines.incrementRangeBy (row + 1) tb.lines.len tb.line_sep.len }
  else
    let tb :=
      if row = tb.totalLines ∧ ¬ endsWithSep (tb.rawLine (row - 1)) tb.line_sep.bytes then
        tb.insertIntoLine (row - 1) (tb.rawLineLen (row - 1)) tb.line_sep.bytes
      else tb
    let index := tb.lines.getOne (row - 1) + tb.rawLineLen (row - 1)
    let tb2 := { tb with chars := tb.chars.insert index tb.line_sep.bytes }
    let before := tb2.lines.getOne (row - 1) + tb2.rawLineLen (row - 1) - tb2.line_sep.len
    { tb2 with lines := tb2.lines.insert row [before] }

/-- The byte-length loop of `remove_from_line`: sum `len_utf8` over the
character span `[index, index+len)`. -/
def spanLenLoop (tb : TextBuffer) (i charIdx idxFrom idxTo acc : Nat) : Nat → Nat
  | 0 => acc
  | fuel + 1 =>
    match utf8Next tb.chars i with
    | none => acc
    | some (c, j) =>
      if charIdx ≥ idxTo then acc
      else spanLenLoop tb j (charIdx + 1) idxFrom idxTo
        (if charIdx ≥ idxFrom then acc + c.utf8Size else acc) fuel

/-- `TextBuffer::remove_from_line`. -/
def removeFromLine (tb : TextBuffer) (line index length : Nat) : TextBuffer :=
  let start := tb.lines.getOne line
  let actualIndex := tb.screenIndexToBytesIndex line index
  let actualLen := spanLenLoop tb (tb.utf8IterFrom ⟨line, 0⟩) 0 index (index + length) 0
    (tb.chars.data.length + 1)
  { tb with chars := tb.chars.remove (start + actualIndex) actualLen,
            lines := tb.lines.decrementRangeBy (line + 1) tb.lines.len actualLen }

/-- `TextBuffer::remove_line`. -/
def removeLine (tb : TextBuffer) (line : Nat) : TextBuffer :=
  let start := tb.lines.getOne line
  let length := tb.rawLineLen line
  let tb := { tb with chars := tb.chars.remove start length }
  let tb :=
    if line < tb.totalLines - 1 then
      { tb with lines := tb.lines.decrementRangeBy (line + 1) tb.lines.len length }
    else tb
  if tb.totalLines > 1 then { tb with lines := tb.lines.remove line 1 } else tb

/-- `TextBuffer::remove_line_sep`. -/
def removeLineSep (tb : TextBuffer) (line : Nat) : TextBuffer :=
  let start := tb.lines.getOne line
  let length := tb.rawLineLen line
  let tb := { tb with chars := tb.chars.remove (start + length - tb.line_sep.len) tb.line_sep.len }
  let tb := { tb with lines := tb.lines.decrementRangeBy (line + 1) tb.lines.len tb.line_sep.len }
  { tb with lines := tb.lines.remove (line + 1) 1 }

/-- `TextBuffer::split_line_at_index`. -/
def splitLineAtIndex (tb : TextBuffer) (line index : Nat) : TextBuffer :=
  let start := tb.lines.getOne line
  let actualIndex := tb.screenIndexToBytesIndex line index
  let tb := { tb with chars := tb.chars.insert (start + actualIndex) tb.line_sep.bytes }
  let tb := { tb with lines := tb.lines.insert (line + 1) [start + actualIndex] }
  { tb with lines := tb.lines.incrementRangeBy (line + 1) tb.lines.len tb.line_sep.len }

/-- `TextBuffer::remove_by_range` (inclusive `Position → Position`). -/
def removeByRange (tb : TextBuffer) (s e : LinePos) : TextBuffer :=
  if s.line = e.line then
    let ll := tb.lineLen s.line
    let tb2 := tb.removeFromLine s.line s.col (min (e.col - s.col + 1) ll)
    if e.col = ll ∧ tb2.totalLines > 1 then tb2.removeLineSep s.line else tb2
  else
    let ll := tb.lineLen s.line
    let tb := tb.removeFromLine s.line s.col (ll - s.col)
    let tb := tb.removeFromLine e.line 0 (e.col + 1)
    let tb := (fun n => Nat.rec (motive := fun _ => TextBuffer) tb
      (fun _ acc => acc.removeLine (s.line + 1)) n) (e.line - (s.line + 1))
    tb.removeLineSep s.line

/-- `TextBuffer::utf8_rev_iter`: the returned backward-iterator state. -/
def utf8RevIterFrom (tb : TextBuffer) (pos : LinePos) : Nat :=
  let lineLength := tb.lineLen pos.line + tb.line_sep.len
  let start :=
    if pos.line < tb.totalLines - 1 then tb.lines.getOne (pos.line + 1) - 1
    else tb.chars.len - 1
  revSkipChars tb.chars (start + 1) (lineLength - pos.col - 1)

end TextBuffer

/-!
`vim_commands.rs`: the motion grammar and the word-boundary algorithms.
`char::is_whitespace` / `char::is_alphanumeric` are Unicode predicates in
Rust; we embed their ASCII fragments (the Unicode tables are out of scope,
and every theorem below evaluates them on ASCII input only).
-/

/-- ASCII fragment of `char::is_whitespace`. -/
def charIsWhitespace (c : Char) : Bool :=
  c = ' ' || c = '\t' || c = '\n' || c = Char.ofNat 11 || c = Char.ofNat 12 || c = '\r'

/-- ASCII fragment of `char::is_alphanumeric`. -/
def charIsAlphanumeric (c : Char) : Bool :=
  c.isAlpha || c.isDigit

/-- `vim_commands::is_letter`. -/
def is_letter (c : Char) : Bool :=
  charIsAlphanumeric c || c = '_'

/-- `vim_commands::is_special`. -/
def is_special (c : Char) : Bool :=
  !(charIsWhitespace c || charIsAlphanumeric c || c = '_')

inductive EditorMode where
  | Insert
  | Normal
  | Visual
  | VisualLine
  | CommandBar
  | Search
deriving DecidableEq, Repr

/-- `vim_commands::Action` (`Scroll` appears only in the dispatcher's
version of the enum in `editor.rs`; the parser never produces it). -/
inductive Action where
  | Delete
  | Goto
  | GOTO
  | Scroll
deriving DecidableEq, Repr

/-- `vim_commands::Object`, including the variants that only the
dispatcher in `editor.rs` matches on. -/
inductive Object where
  | BackWord
  | BackWORD
  | Word
  | WordEnd
  | WORD
  | WORDEnd
  | Append
  | Insert
  | NormalMode
  | VisualMode
  | VisualLineMode
  | CommandBarMode
  | SearchMode
  | VisualSelection
  | Up
  | Down
  | Left
  | Right
  | Line
  | LineStart
  | LineEnd
  | CharUnderCursor
  | NextSearchResult
  | PreviousSearchResult
  | PageTop
  | PageMiddle
  | PageBot
  | HalfScreenUp
  | HalfScreenDown
  | InsertLineUp
  | InsertLineDown
deriving DecidableEq, Repr

/-- `vim_commands::Modifier` (counts are `u32`, wrapping on overflow in a
release build). -/
inductive Modifier where
  | Around
  | Inside
  | FindForwards
  | FindBackwards
  | TillForwards
  | TillBackwards
  | Count (n : Nat)
deriving DecidableEq, Repr

structure Motion where
  action : Option Action
  object : Option Object
  modifier : Option Modifier
deriving DecidableEq, Repr

namespace Motion

/-- `Motion::new`. -/
def new : Motion := ⟨none, none, none⟩

/-- `Motion::clear`. -/
def clear (_ : Motion) : Motion := ⟨none, none, none⟩

/-- `Motion::parse`. -/
def parse (m : Motion) (ch : Char) (current_mode : EditorMode) : Motion :=
  if ch = '$' then { m with object := some Object.LineEnd }
  else if '1' ≤ ch ∧ ch ≤ '9' then
    match m.modifier with
    | some (Modifier.Count n) =>
      { m with modifier := some (Modifier.Count ((n * 10 + (ch.toNat - 48)) % 4294967296)) }
    | _ => { m with modifier := some (Modifier.Count (ch.toNat - 48)) }
  else if ch = '0' then
    match m.modifier with
    | some (Modifier.Count n) => { m with modifier := some (Modifier.Count ((n * 10) % 4294967296)) }
    | _ => { m with object := some Object.LineStart }
  else if ch = 'a' then
    if current_mode = EditorMode.Visual then { m with modifier := some Modifier.Around }
    else if m.action = some Action.Delete then { m with modifier := some Modifier.Around }
    else { m with object := some Object.Append }
  else if ch = 'b' then { m with object := some Object.BackWord }
  else if ch = 'd' then
    if m.action = some Action.Delete then { m with object := some Object.Line }
    else
      let m := { m with action := some Action.Delete }
      if current_mode = EditorMode.Visual ∨ current_mode = EditorMode.VisualLine then
        { m with object := some Object.VisualSelection }
      else m
  else if ch = 'e' then { m with object := some Object.WordEnd }
  else if ch = 'g' then
    if m.action = some Action.Goto then { m with object := some Object.Line }
    else { m with action := some Action.Goto }
  else if ch = 'G' then { m with object := some Object.Line, action := some Action.GOTO }
  else if ch = 'h' then { m with object := some Object.Left }
  else if ch = 'i' then
    if current_mode = EditorMode.Visual then { m with modifier := some Modifier.Inside }
    else if m.action = some Action.Delete then { m with modifier := some Modifier.Inside }
    else { m with object := some Object.Insert }
  else if ch = 'j' then { m with object := some Object.Down }
  else if ch = 'k' then { m with object := some Object.Up }
  else if ch = 'l' then { m with object := some Object.Right }
  else if ch = 'n' then { m with object := some Object.NextSearchResult }
  else if ch = 'N' then { m with object := some Object.PreviousSearchResult }
  else if ch = 'v' then
    let m := if current_mode = EditorMode.Visual then { m with object := some Object.NormalMode } else m
    { m with object := some Object.VisualMode }
  else if ch = 'V' then
    let m := if current_mode = EditorMode.VisualLine then { m with object := some Object.NormalMode } else m
    { m with object := some Object.VisualLineMode }
  else if ch = 'w' then { m with object := some Object.Word }
  else if ch = 'W' then { m with object := some Object.WORD }
  else if ch = 'x' then
    let m := if current_mode = EditorMode.Visual then { m with action := some Action.Delete } else m
    { m with action := some Action.Delete, object := some Object.CharUnderCursor }
  else if ch = ':' then { m with object := some Object.CommandBarMode }
  else if ch = '/' then { m with object := some Object.SearchMode }
  else m

end Motion

/-- The loop of `vim_commands::count`: chain `f`, remembering the last
successful position. -/
def countGo (buf : TextBuffer) (f : LinePos → TextBuffer → Option LinePos) :
    LinePos → Option LinePos → Nat → Option LinePos
  | _, last, 0 => last
  | cursor, last, n + 1 =>
    match f cursor buf with
    | none => last
    | some pos => countGo buf f pos (some pos) n

/-- `vim_commands::count`. -/
def count (cursor : LinePos) (buf : TextBuffer) (n : Nat)
    (f : LinePos → TextBuffer → Option LinePos) : Option LinePos :=
  countGo buf f cursor none n

/-- The scan loop of `find_next_word_start` when the character under the
cursor is alphanumeric or `_`.  Result: (line_add, col, found). -/
def fnwsLoopAlnum (tb : TextBuffer) (i : Nat) (lineAdd : Nat) (col : Int) (foundWs : Bool) :
    Nat → Nat × Int × Bool
  | 0 => (lineAdd, col, false)
  | fuel + 1 =>
    match utf8Next tb.chars i with
    | none => (lineAdd, col, false)
    | some (c, j) =>
      if c = '\n' then fnwsLoopAlnum tb j (lineAdd + 1) (-1) true fuel
      else
        let foundWs := foundWs || charIsWhitespace c
        let col := col + 1
        if !charIsAlphanumeric c && c ≠ ' ' && c ≠ '_' then (lineAdd, col, true)
        else if foundWs && (charIsAlphanumeric c || c = '_') then (lineAdd, col, true)
        else fnwsLoopAlnum tb j lineAdd col foundWs fuel

/-- The scan loop of `find_next_word_start` in the non-letter case. -/
def fnwsLoopOther (tb : TextBuffer) (i : Nat) (lineAdd : Nat) (col : Int) (foundWs : Bool) :
    Nat → Nat × Int × Bool
  | 0 => (lineAdd, col, false)
  | fuel + 1 =>
    match utf8Next tb.chars i with
    | none => (lineAdd, col, false)
    | some (c, j) =>
      if c = '\n' then fnwsLoopOther tb j (lineAdd + 1) (-1) true fuel
      else
        let foundWs := foundWs || charIsWhitespace c
        let col := col + 1
        if (foundWs && !charIsWhitespace c) || charIsAlphanumeric c then (lineAdd, col, true)
        else fnwsLoopOther tb j lineAdd col foundWs fuel

/-- `vim_commands::find_next_word_start` (`col as usize` via `Int.toNat`;
the scan only reports `found` after a `col += 1`, so the cast is of a
non-negative value). -/
def find_next_word_start (cursor : LinePos) (buf : TextBuffer) : Option LinePos :=
  let i := buf.utf8IterFrom cursor
  match utf8Next buf.chars i with
  | none => none
  | some (c, j) =>
    let col : Int := cursor.col
    if charIsAlphanumeric c || c = '_' then
      let r := fnwsLoopAlnum buf j 0 col false (buf.chars.data.length + 1)
      if r.2.2 then some ⟨cursor.line + r.1, r.2.1.toNat⟩ else none
    else
      let lineAdd := if c = '\n' then 1 else 0
      let foundWs := c = '\n' || charIsWhitespace c
      let r := fnwsLoopOther buf j lineAdd col foundWs (buf.chars.data.length + 1)
      if r.2.2 then some ⟨cursor.line + r.1, r.2.1.toNat⟩ else none

/-- The scan loop of `find_next_WORD_start`. -/
def fnWsLoop (tb : TextBuffer) (i : Nat) (lineAdd : Nat) (col : Int) (foundWs : Bool) :
    Nat → Nat × Int × Bool
  | 0 => (lineAdd, col, false)
  | fuel + 1 =>
    match utf8Next tb.chars i with
    | none => (lineAdd, col, false)
    | some (c, j) =>
      if c = '\n' then fnWsLoop tb j (lineAdd + 1) (-1) true fuel
      else
        let foundWs := foundWs || charIsWhitespace c
        let col := col + 1
        if foundWs && !charIsWhitespace c then (lineAdd, col, true)
        else fnWsLoop tb j lineAdd col foundWs fuel

/-- `vim_commands::find_next_WORD_start`. -/
def find_next_WORD_start (cursor : LinePos) (buf : TextBuffer) : Option LinePos :=
  let i := buf.utf8IterFrom cursor
  match utf8Next buf.chars i with
  | none => none
  | some (c, j) =>
    let col : Int := cursor.col
    let lineAdd := if c = '\n' then 1 else 0
    let foundWs := c = '\n'
    let r := fnWsLoop buf j lineAdd col foundWs (buf.chars.data.length + 1)
    if r.2.2 then some ⟨cursor.line + r.1, r.2.1.toNat⟩ else none

/-- The scan loop shared by `find_current_word_start` (backward) and
`find_current_word_end` (forward): walk characters, fixing the "looking
for" classes on the first one, stopping on a match or line edge.  `adv`
moves the column, `bump` is applied on a class match. -/
def fcwLoop (tb : TextBuffer) (step : GapBuffer Nat → Nat → Option (Char × Nat))
    (backward : Bool) (startCol : Nat) (i col : Nat)
    (lfl lfw lfs : Bool) : Nat → Nat
  | 0 => col
  | fuel + 1 =>
    match step tb.chars i with
    | none => col
    | some (c, j) =>
      if c = '\r' ∨ c = '\n' then col
      else
        let (lfl, lfw, lfs) :=
          if col = startCol then
            if is_letter c then (lfl, true, true)
            else if charIsWhitespace c then (true, lfw, true)
            else (true, true, lfs)
          else (lfl, lfw, lfs)
        if lfl && is_letter c then (if backward then col + 1 else col)
        else if lfw && charIsWhitespace c then (if backward then col + 1 else col)
        else if lfs && is_special c then (if backward then col + 1 else col)
        else if backward then
          (if col = 0 then col else fcwLoop tb step backward startCol j (col - 1) lfl lfw lfs fuel)
        else fcwLoop tb step backward startCol j (col + 1) lfl lfw lfs fuel

/-- `vim_commands::find_current_word_start`. -/
def find_current_word_start (cursor : LinePos) (buf : TextBuffer) : Option LinePos :=
  let i := buf.utf8RevIterFrom cursor
  let col := fcwLoop buf utf8RevNext true cursor.col i cursor.col false false false
    (buf.chars.data.length + 1)
  some ⟨cursor.line, col⟩

/-- `vim_commands::find_current_word_end`. -/
def find_current_word_end (cursor : LinePos) (buf : TextBuffer) : Option LinePos :=
  let i := buf.utf8IterFrom cursor
  let col := fcwLoop buf utf8Next false cursor.col i cursor.col false false false
    (buf.chars.data.length + 1)
  if col = 0 then none else some ⟨cursor.line, col - 1⟩

/-- The scan loop of `find_current_WORD_start` / `find_current_WORD_end`. -/
def fcWLoop (tb : TextBuffer) (step : GapBuffer Nat → Nat → Option (Char × Nat))
    (backward : Bool) (startCol : Nat) (i col : Nat) (lfw : Bool) : Nat → Nat
  | 0 => col
  | fuel + 1 =>
    match step tb.chars i with
    | none => col
    | some (c, j) =>
      if c = '\r' ∨ c = '\n' then col
      else
        let lfw := if col = startCol ∧ charIsWhitespace c then false else lfw
        if lfw && charIsWhitespace c then (if backward then col + 1 else col)
        else if !lfw && !charIsWhitespace c then (if backward then col + 1 else col)
        else if backward then
          (if col = 0 then col else fcWLoop tb step backward startCol j (col - 1) lfw fuel)
        else fcWLoop tb step backward startCol j (col + 1) lfw fuel

/-- `vim_commands::find_current_WORD_start`. -/
def find_current_WORD_start (cursor : LinePos) (buf : TextBuffer) : Option LinePos :=
  let i := buf.utf8RevIterFrom cursor
  let col := fcWLoop buf utf8RevNext true cursor.col i cursor.col true
    (buf.chars.data.length + 1)
  some ⟨cursor.line, col⟩

/-- `vim_commands::find_current_WORD_end`. -/
def find_current_WORD_end (cursor : LinePos) (buf : TextBuffer) : Option LinePos :=
  let i := buf.utf8IterFrom cursor
  let col := fcWLoop buf utf8Next false cursor.col i cursor.col true
    (buf.chars.data.length + 1)
  if col = 0 then none else some ⟨cursor.line, col - 1⟩

/-- The scan loop of `find_previous_word_start` (line/col bookkeeping and
the found/looking-for flags exactly as in the source). -/
def fpwsLoop (tb : TextBuffer) (i line col : Nat) (lfl lfs found : Bool) : Nat → Nat × Nat
  | 0 => (line, col)
  | fuel + 1 =>
    match utf8RevNext tb.chars i with
    | none => (line, col)
    | some (c, j) =>
      if c = '\n' then
        if found then (line, col)
        else fpwsLoop tb j (line - 1) (tb.lineLen (line - 1)) lfl lfs found fuel
      else if c = '\r' then fpwsLoop tb j line col lfl lfs found fuel
      else
        let (found, lfl, lfs) :=
          if !found && lfl && is_letter c then (true, lfl, false)
          else if !found && lfs && is_special c then (true, false, lfs)
          else (found, lfl, lfs)
        if found && lfl && !is_letter c then (line, col)
        else if found && lfs && !is_special c then (line, col)
        else fpwsLoop tb j line (col - 1) lfl lfs found fuel

/-- `vim_commands::find_previous_word_start`. -/
def find_previous_word_start (cursor : LinePos) (buf : TextBuffer) : Option LinePos :=
  let step :=
    if cursor.col > 0 then some (cursor.line, cursor.col - 1)
    else if cursor.line = 0 then none
    else some (cursor.line - 1, buf.lineLen (cursor.line - 1))
  match step with
  | none => none
  | some (line, col) =>
    let i := buf.utf8RevIterFrom ⟨line, col⟩
    match utf8RevNext buf.chars i with
    | none => none
    | some (c, j) =>
      let (lfl, lfs, found) :=
        if charIsWhitespace c then (true, true, false)
        else if is_letter c then (true, false, true)
        else (false, true, true)
      let r := fpwsLoop buf j line col lfl lfs found (buf.chars.data.length + 1)
      some ⟨r.1, r.2⟩

/-- The scan loop of `find_next_word_end`. -/
def fnweLoop (tb : TextBuffer) (i line col : Nat) (lfl lfs found : Bool) : Nat → Nat × Nat
  | 0 => (line, col)
  | fuel + 1 =>
    match utf8Next tb.chars i with
    | none => (line, col)
    | some (c, j) =>
      if c = '\n' then
        if found then (line, col)
        else fnweLoop tb j (line + 1) 0 lfl lfs found fuel
      else if c = '\r' then fnweLoop tb j line col lfl lfs found fuel
      else
        let (found, lfl, lfs) :=
          if !found && lfl && is_letter c then (true, lfl, false)
          else if !found && lfs && is_special c then (true, false, lfs)
          else (found, lfl, lfs)
        if found && lfl && !is_letter c then (line, col)
        else if found && lfs && !is_special c then (line, col)
        else fnweLoop tb j line (col + 1) lfl lfs found fuel

/-- `vim_commands::find_next_word_end`. -/
def find_next_word_end (cursor : LinePos) (buf : TextBuffer) : Option LinePos :=
  let lineLength := buf.lineLen cursor.line
  let step :=
    if cursor.col + 1 < lineLength then some (cursor.line, cursor.col + 1)
    else if cursor.line = buf.totalLines - 1 then none
    else some (cursor.line + 1, 0)
  match step with
  | none => none
  | some (line, col) =>
    let i := buf.utf8IterFrom ⟨line, col⟩
    match utf8Next buf.chars i with
    | none => none
    | some (c, j) =>
      let (lfl, lfs, found) :=
        if charIsWhitespace c then (true, true, false)
        else if is_letter c then (true, false, true)
        else (false, true, true)
      let (line, col) := if c = '\n' then (line + 1, 0) else (line, col)
      let r := fnweLoop buf j line col lfl lfs found (buf.chars.data.length + 1)
      some ⟨r.1, r.2⟩

/-!
`main.rs` state (`CursorPos`, `Io`, `State`) and the collaborators of the
mode controller: `search.rs`, `command_bar.rs`, `indent.rs`.  Window
geometry (`max_rows`, floating-point font metrics) is externalized into a
plain field, and the file system is out of scope per the spec.
-/

inductive SpecialKey where
  | Backspace
  | Enter
  | Escape
  | Control
  | Tab
deriving DecidableEq, Repr

structure Io where
  chars : List Char
  special_keys : List SpecialKey
deriving Repr

/-- `Io::pressed_special`. -/
def Io.pressedSpecial (io : Io) (k : SpecialKey) : Bool :=
  io.special_keys.contains k

/-- The per-tick `State` of `main.rs`, restricted to the fields the core
reads or writes.  `maxRowsVal` stands for `max_rows()` (a floating-point
window-geometry computation, externalized). -/
structure State where
  io : Io
  cmd_bar_cursor_x : Nat
  start_line : Nat
  maxRowsVal : Nat
  should_quit : Bool
deriving Repr

/-- `CursorPos` (1-indexed x/y plus the remembered column). -/
structure CursorPos where
  x : Nat
  y : Nat
  wanted_x : Nat
  buffer : Nat
deriving DecidableEq, Repr

namespace CursorPos

/-- `CursorPos::new`. -/
def new (buffer : Nat) : CursorPos := ⟨1, 1, 1, buffer⟩

/-- `CursorPos::to_linepos`. -/
def toLinepos (c : CursorPos) : LinePos := ⟨c.y - 1, c.x - 1⟩

/-- `CursorPos::from_linepos`. -/
def fromLinepos (c : CursorPos) (pos : LinePos) : CursorPos :=
  { c with x := pos.col + 1, y := pos.line + 1, wanted_x := pos.col + 1 }

end CursorPos

/-- Modelled from the spec: `full_view` is called by `search.rs` and the
save path but absent from the embedded `gap_buffer.rs`.  Per the spec the
store serializes its full content on demand; the `LineView` type of the
embedded source exposes it either as one contiguous slice or as the two
slices around the gap, which a shared-reference method cannot relocate. -/
def TextBuffer.fullView (tb : TextBuffer) : LineView :=
  if tb.chars.gap_start = 0 then
    LineView.Contiguous (tb.chars.data.drop tb.chars.gap_end)
  else if tb.chars.gap_end ≥ tb.chars.data.length then
    LineView.Contiguous (tb.chars.data.take tb.chars.gap_start)
  else
    LineView.Parts (tb.chars.data.take tb.chars.gap_start) (tb.chars.data.drop tb.chars.gap_end)

/-- Count decoded characters from byte offset `j` up to byte offset
`target` (helper of the modelled `byte_to_linepos`). -/
def countCharsUpTo (tb : TextBuffer) (j target : Nat) : Nat → Nat
  | 0 => 0
  | fuel + 1 =>
    match utf8Next tb.chars j with
    | none => 0
    | some (_, k) => if k ≤ target then 1 + countCharsUpTo tb k target fuel else 0

/-- Modelled from the spec: `byte_to_linepos` is called by `search.rs` but
absent from the embedded source.  A Position is a zero-indexed line plus a
column in decoded characters: the line of byte `i` is the last whose start
offset is at most `i`, the column counts the decoded characters of that
line lying wholly before `i`. -/
def TextBuffer.byteToLinepos (tb : TextBuffer) (i : Nat) : LinePos :=
  let starts := tb.lines.logical
  let line := (starts.filter (· ≤ i)).length - 1
  let lineStart := starts.getD line 0
  ⟨line, countCharsUpTo tb lineStart i (tb.chars.data.length + 1)⟩

/-- The byte indices of all windows of `hay` equal to `needle`
(`slice::windows(n).enumerate()`; `windows(0)` panics in Rust and the
search mode never produces an empty needle). -/
def windowIdx (hay needle : List Nat) : List Nat :=
  if needle.length = 0 then []
  else (List.range (hay.length + 1 - needle.length)).filter
    (fun i => decide ((hay.drop i).take needle.length = needle))

/-- `search::search`. -/
def search (needle : List Nat) (buf : TextBuffer) : List LinePos :=
  match buf.fullView with
  | LineView.Contiguous s => (windowIdx s needle).map buf.byteToLinepos
  | LineView.Parts s1 s2 =>
    (windowIdx s1 needle).map buf.byteToLinepos ++
      (windowIdx s2 needle).map (fun i => buf.byteToLinepos (i + s1.length))

/-- Modelled from the spec: `bytes_iter` is called by `indent.rs` but
absent from the embedded `gap_buffer.rs`; per the spec the indentation
collaborator reads the reference line's raw leading whitespace, i.e. the
store's bytes from the start of `line - 1`. -/
def leadingSpaces (gb : GapBuffer Nat) (i : Nat) : Nat → Nat
  | 0 => 0
  | fuel + 1 =>
    match gb.iterNext i with
    | none => 0
    | some (b, j) => if b ≠ 32 then 0 else 1 + leadingSpaces gb j fuel

/-- `indent::indent_wanted`. -/
def indent_wanted (line : Nat) (buf : TextBuffer) : Option Nat :=
  if line = 0 then none
  else some (leadingSpaces buf.chars (buf.lines.getOne (line - 1)) (buf.chars.data.length + 1))

/-- Canonical UTF-8 encoding of a character (`str::as_bytes` /
`char::len_utf8` bookkeeping for typed input). -/
def encChar (c : Char) : List Nat :=
  let n := c.toNat
  if n < 0x80 then [n]
  else if n < 0x800 then [0xC0 ||| (n >>> 6), 0x80 ||| (n &&& 0x3F)]
  else if n < 0x10000 then
    [0xE0 ||| (n >>> 12), 0x80 ||| ((n >>> 6) &&& 0x3F), 0x80 ||| (n &&& 0x3F)]
  else
    [0xF0 ||| (n >>> 18), 0x80 ||| ((n >>> 12) &&& 0x3F),
     0x80 ||| ((n >>> 6) &&& 0x3F), 0x80 ||| (n &&& 0x3F)]

/-- `str::as_bytes` on a character list. -/
def encodeChars (cs : List Char) : List Nat :=
  (cs.map encChar).flatten

/-- `command_bar.rs`: the sorted command-name table (as character lists —
`&str` ordering in Rust is bytewise, which on these ASCII names coincides
with the character-lexicographic order below). -/
def cmdNames : List (List Char) :=
  ["e".toList, "edit".toList, "q".toList, "quit".toList, "w".toList, "write".toList]

/-- The command handlers, identified by table index (0,1 = edit; 2,3 =
quit; 4,5 = write). -/
def cmdIsEdit (n : Nat) : Bool := n = 0 || n = 1

def cmdIsQuit (n : Nat) : Bool := n = 2 || n = 3

/-- Lexicographic strict order on character lists (`&str`'s `Ord`). -/
def charListLt : List Char → List Char → Bool
  | [], [] => false
  | [], _ :: _ => true
  | _ :: _, [] => false
  | a :: as, b :: bs => if a < b then true else if b < a then false else charListLt as bs

instance : DecidableEq (Except Unit (Option Nat)) := fun a b =>
  match a, b with
  | Except.error (), Except.error () => isTrue rfl
  | Except.ok a, Except.ok b =>
    if h : a = b then isTrue (congrArg Except.ok h)
    else isFalse (fun hh => h (Except.ok.inj hh))
  | Except.error _, Except.ok _ => isFalse (fun hh => Except.noConfusion hh)
  | Except.ok _, Except.error _ => isFalse (fun hh => Except.noConfusion hh)

/-- `command_bar::match_cmd`.  `binary_search` on the sorted, duplicate-free
table finds an equal entry or yields the insertion point (the number of
smaller entries); when the insertion point is one past the end, the source
indexes `NAMES[n]` out of bounds — a panic, modelled as `Except.error`. -/
def match_cmd (input : List Char) : Except Unit (Option Nat) :=
  match cmdNames.indexOf? input with
  | some n => Except.ok (some n)
  | none =>
    let n := (cmdNames.filter (fun s => charListLt s input)).length
    match cmdNames.get? n with
    | none => Except.error ()
    | some name => Except.ok (if List.isPrefixOf input name then some n else none)

/-- `editor::closest_position` (`binary_search` over the sorted match list;
for an absent cursor the insertion point is the count of smaller entries). -/
def closest_position (cursor : LinePos) (positions : List LinePos) : Option LinePos :=
  if positions.isEmpty then none
  else if positions.contains cursor then some cursor
  else
    let pos := (positions.filter (· < cursor)).length
    let pos := if pos = positions.length then 0 else pos
    some (positions.getD pos ⟨0, 0⟩)

/-- `editor::next_position`. -/
def next_position (cursor : LinePos) (positions : List LinePos) : Option LinePos :=
  if positions.isEmpty then none
  else
    let n := (positions.filter (· < cursor)).length
    let pos := if positions.contains cursor then n + 1 else n
    match positions.get? pos with
    | some p => some p
    | none => some (positions.getD 0 ⟨0, 0⟩)

/-- `editor::previous_position`. -/
def previous_position (cursor : LinePos) (positions : List LinePos) : Option LinePos :=
  if positions.isEmpty then none
  else
    let n := (positions.filter (· < cursor)).length
    let pos := if n = 0 then positions.length - 1 else n - 1
    some (positions.getD pos ⟨0, 0⟩)

/-- The editor, restricted to the state the core mutates (buffer ids, file
paths and the root folder belong to the external file-system collaborator). -/
structure Editor where
  buffers : List TextBuffer
  cursors : List CursorPos
  current_buffer : Nat
  search_results : List LinePos
  command_bar_input : List Char
  visual_range_anchor : LinePos
  motion : Motion
  mode : EditorMode

namespace Editor

/-- Write back the current buffer. -/
def setBuf (ed : Editor) (b : TextBuffer) : Editor :=
  { ed with buffers := ed.buffers.set ed.current_buffer b }

/-- Write back the current cursor. -/
def setCur (ed : Editor) (c : CursorPos) : Editor :=
  { ed with cursors := ed.cursors.set ed.current_buffer c }

end Editor

/-- Apply `f` to `a`, `n` times (a counted `for` loop). -/
def iterApply {α : Type} (f : α → α) : Nat → α → α
  | 0, a => a
  | n + 1, a => iterApply f n (f a)

/-- `Editor::execute_cmd`.  Each arm mirrors the source's `match obj`;
all arms fall through to `true` (the motion is consumed), except the
missing-object early return.  The `todo!()` arms (`BackWORD`, `WORDEnd`)
panic in the source; they are modelled as no-ops and no theorem below
exercises them. -/
def executeCmd (ed : Editor) (st : State) : Editor × State × Bool :=
  match ed.buffers.get? ed.current_buffer, ed.cursors.get? ed.current_buffer with
  | some buffer, some cc =>
    match ed.motion.object with
    | none => (ed, st, false)
    | some obj =>
      let cursor := cc.toLinepos
      match obj with
      | Object.BackWord =>
        match find_previous_word_start cursor buffer with
        | none => (ed, st, true)
        | some pos =>
          let buffer :=
            if ed.motion.action = some Action.Delete then buffer.removeByRange pos cursor
            else buffer
          ((ed.setBuf buffer).setCur (cc.fromLinepos pos), st, true)
      | Object.BackWORD => (ed, st, true)
      | Object.Word =>
        if ed.motion.modifier = some Modifier.Inside then
          match find_current_word_start cursor buffer with
          | none => (ed, st, true)
          | some start =>
            match find_current_word_end cursor buffer with
            | none => (ed, st, true)
            | some stop =>
              if ed.motion.action = some Action.Delete then
                let buffer := buffer.removeFromLine cursor.line start.col (stop.col - start.col + 1)
                let newX := max (min (start.col + 1) (buffer.lineLen cursor.line)) 1
                ((ed.setBuf buffer).setCur { cc with x := newX, wanted_x := newX }, st, true)
              else if ed.mode = EditorMode.Visual then
                (({ ed with visual_range_anchor := start }).setCur (cc.fromLinepos stop), st, true)
              else (ed, st, true)
        else
          let pos :=
            match ed.motion.modifier with
            | some (Modifier.Count n) => count cursor buffer n find_next_word_start
            | _ => find_next_word_start cursor buffer
          match pos with
          | none => (ed, st, true)
          | some pos =>
            if ed.motion.action = some Action.Delete then
              let pos :=
                if pos.col > 0 then LinePos.mk pos.line (pos.col - 1)
                else LinePos.mk (pos.line - 1) (buffer.lineLen (pos.line - 1))
              (ed.setBuf (buffer.removeByRange cursor pos), st, true)
            else (ed.setCur (cc.fromLinepos pos), st, true)
      | Object.WordEnd =>
        let pos :=
          match ed.motion.modifier with
          | some (Modifier.Count n) => count cursor buffer n find_next_word_end
          | _ => find_next_word_end cursor buffer
        match pos with
        | none => (ed, st, true)
        | some pos =>
          if ed.motion.action = some Action.Delete then
            (ed.setBuf (buffer.removeByRange cursor pos), st, true)
          else (ed.setCur (cc.fromLinepos pos), st, true)
      | Object.WORDEnd => (ed, st, true)
      | Object.WORD =>
        if ed.motion.modifier = some Modifier.Inside then
          match find_current_WORD_start cursor buffer with
          | none => (ed, st, true)
          | some start =>
            match find_current_WORD_end cursor buffer with
            | none => (ed, st, true)
            | some stop =>
              if ed.motion.action = some Action.Delete then
                let buffer := buffer.removeByRange start stop
                let newX := max (min (start.col + 1) (buffer.lineLen cursor.line)) 1
                ((ed.setBuf buffer).setCur { cc with x := newX, wanted_x := newX }, st, true)
              else if ed.mode = EditorMode.Visual then
                (({ ed with visual_range_anchor := start }).setCur (cc.fromLinepos stop), st, true)
              else (ed, st, true)
        else
          let pos :=
            match ed.motion.modifier with
            | some (Modifier.Count n) => count cursor buffer n find_next_WORD_start
            | _ => find_next_WORD_start cursor buffer
          match pos with
          | none => (ed, st, true)
          | some pos =>
            if ed.motion.action = some Action.Delete then
              let pos :=
                if pos.col > 0 then LinePos.mk pos.line (pos.col - 1)
                else LinePos.mk (pos.line - 1) (buffer.lineLen (pos.line - 1))
              (ed.setBuf (buffer.removeByRange cursor pos), st, true)
            else (ed.setCur (cc.fromLinepos pos), st, true)
      | Object.Append =>
        let ed := { ed with mode := EditorMode.Insert }
        if buffer.lineLen cursor.line > 0 then (ed.setCur { cc with x := cc.x + 1 }, st, true)
        else (ed, st, true)
      | Object.Insert => ({ ed with mode := EditorMode.Insert }, st, true)
      | Object.NormalMode => ({ ed with mode := EditorMode.Normal }, st, true)
      | Object.VisualMode =>
        ({ ed with mode := EditorMode.Visual, visual_range_anchor := cursor }, st, true)
      | Object.VisualLineMode =>
        ({ ed with mode := EditorMode.VisualLine, visual_range_anchor := cursor }, st, true)
      | Object.VisualSelection =>
        if ed.motion.action = some Action.Delete then
          if ed.mode = EditorMode.Visual then
            let mn := ed.visual_range_anchor.minP cursor
            let mx := ed.visual_range_anchor.maxP cursor
            let buffer := buffer.removeByRange mn mx
            let ed := (ed.setBuf buffer).setCur (cc.fromLinepos mn)
            ({ ed with mode := EditorMode.Normal }, st, true)
          else if ed.mode = EditorMode.VisualLine then
            let s := ed.visual_range_anchor.minP cursor
            let e := ed.visual_range_anchor.maxP cursor
            let buffer := iterApply (fun b => b.removeLine s.line) (e.line + 1 - s.line) buffer
            let sline := min s.line (buffer.totalLines - 1)
            let scol := min s.col (buffer.lineLen sline)
            let ed := (ed.setBuf buffer).setCur (cc.fromLinepos ⟨sline, scol⟩)
            ({ ed with mode := EditorMode.Normal }, st, true)
          else (ed, st, true)
        else (ed, st, true)
      | Object.CommandBarMode =>
        ({ ed with mode := EditorMode.CommandBar,
                   command_bar_input := ed.command_bar_input ++ [':'] },
         { st with cmd_bar_cursor_x := 1 }, true)
      | Object.Up =>
        if cursor.line > 0 then
          let maxX := max (buffer.lineLen (cursor.line - 1)) 1
          let newX := if cc.wanted_x > maxX then maxX else cc.wanted_x
          (ed.setCur { cc with y := cc.y - 1, x := newX }, st, true)
        else (ed, st, true)
      | Object.Down =>
        if cursor.line < buffer.totalLines - 1 then
          let maxX := max (buffer.lineLen (cursor.line + 1)) 1
          let newX := if cc.wanted_x > maxX then maxX else cc.wanted_x
          (ed.setCur { cc with y := cc.y + 1, x := newX }, st, true)
        else (ed, st, true)
      | Object.Left =>
        if cursor.col > 0 then
          (ed.setCur { cc with x := cc.x - 1, wanted_x := cc.x - 1 }, st, true)
        else (ed, st, true)
      | Object.Right =>
        let lineLength := buffer.lineLen cursor.line
        if cursor.col + 1 < lineLength then
          (ed.setCur { cc with x := cc.x + 1, wanted_x := cc.wanted_x + 1 }, st, true)
        else if ed.mode = EditorMode.Visual ∧ cc.x = lineLength then
          (ed.setCur { cc with x := cc.x + 1, wanted_x := cc.wanted_x + 1 }, st, true)
        else (ed, st, true)
      | Object.Line =>
        if ed.motion.action = some Action.Delete then
          let buffer := buffer.removeLine cursor.line
          let cc :=
            if cursor.line = buffer.totalLines ∧ cursor.line > 0 then { cc with y := cc.y - 1 }
            else cc
          let lineLength := buffer.lineLen (cc.y - 1)
          let cc := if cursor.col ≥ lineLength then { cc with x := max lineLength 1 } else cc
          ((ed.setBuf buffer).setCur cc, st, true)
        else if ed.motion.action = some Action.Goto then
          let line := match ed.motion.modifier with | some (Modifier.Count n) => n | _ => 1
          let line := min line buffer.totalLines
          let lineLength := buffer.lineLen (line - 1)
          (ed.setCur { cc with y := line, x := min cc.x (lineLength + 1) }, st, true)
        else if ed.motion.action = some Action.GOTO then
          match ed.motion.modifier with
          | some (Modifier.Count n) =>
            let line := min n buffer.totalLines
            let lineLength := buffer.lineLen (line - 1)
            (ed.setCur { cc with y := line, x := min cc.x lineLength }, st, true)
          | _ =>
            let lastLine := buffer.totalLines - 1
            let lineLength := buffer.lineLen lastLine
            (ed.setCur { cc with y := lastLine + 1, x := min cc.wanted_x lineLength }, st, true)
        else (ed, st, true)
      | Object.LineStart =>
        let buffer :=
          if ed.motion.action = some Action.Delete then buffer.removeFromLine cursor.line 0 cursor.col
          else buffer
        ((ed.setBuf buffer).setCur { cc with x := 1, wanted_x := 1 }, st, true)
      | Object.LineEnd =>
        if ed.motion.action = some Action.Delete then
          let lineLength := buffer.lineLen cursor.line
          let buffer := buffer.removeFromLine cursor.line cursor.col (lineLength - cursor.col)
          let cc :=
            if cursor.col > 0 then { cc with x := cc.x - 1, wanted_x := cc.x - 1 } else cc
          ((ed.setBuf buffer).setCur cc, st, true)
        else
          let newX :=
            if ed.mode = EditorMode.Visual then max (buffer.lineLen (cc.y - 1) + 1) 1
            else max (buffer.lineLen (cc.y - 1)) 1
          (ed.setCur { cc with x := newX, wanted_x := newX }, st, true)
      | Object.CharUnderCursor =>
        let n := match ed.motion.modifier with | some (Modifier.Count n) => n | _ => 1
        let lineLength := buffer.lineLen cursor.line
        if lineLength > 0 then
          let buffer := buffer.removeFromLine cursor.line cursor.col (min n (lineLength - cursor.col))
          let cc :=
            if cc.x - 1 ≥ lineLength - 1 ∧ cc.x > 1 then
              { cc with x := cc.x - 1, wanted_x := cc.x - 1 }
            else cc
          ((ed.setBuf buffer).setCur cc, st, true)
        else (ed, st, true)
      | Object.SearchMode =>
        ({ ed with mode := EditorMode.Search,
                   command_bar_input := ed.command_bar_input ++ ['/'] },
         { st with cmd_bar_cursor_x := 1 }, true)
      | Object.NextSearchResult =>
        match next_position cursor ed.search_results with
        | none => (ed, st, true)
        | some pos => (ed.setCur (cc.fromLinepos pos), st, true)
      | Object.PreviousSearchResult =>
        match previous_position cursor ed.search_results with
        | none => (ed, st, true)
        | some pos => (ed.setCur (cc.fromLinepos pos), st, true)
      | Object.PageTop =>
        if ed.motion.action = some Action.Scroll then
          (ed, { st with start_line := cursor.line }, true)
        else (ed, st, true)
      | Object.PageMiddle =>
        if ed.motion.action = some Action.Scroll then
          let middle := st.maxRowsVal / 2 + st.start_line
          let offset := max middle cursor.line - min middle cursor.line
          let sl :=
            if middle > cursor.line then st.start_line - min offset st.start_line
            else st.start_line + offset
          (ed, { st with start_line := sl }, true)
        else (ed, st, true)
      | Object.PageBot =>
        if ed.motion.action = some Action.Scroll then
          let sl :=
            if cursor.line > st.maxRowsVal then st.start_line + st.maxRowsVal - cursor.line
            else 0
          (ed, { st with start_line := sl }, true)
        else (ed, st, true)
      | Object.HalfScreenUp =>
        if ed.motion.action = some Action.Scroll then
          let half := st.maxRowsVal / 2
          let newY := max (cc.y - min cc.y half) 1
          let newX := min cc.wanted_x (max (buffer.lineLen (newY - 1)) 1)
          (ed.setCur { cc with y := newY, x := newX }, st, true)
        else (ed, st, true)
      | Object.HalfScreenDown =>
        if ed.motion.action = some Action.Scroll then
          let half := st.maxRowsVal / 2
          let newY := min (cc.y + half) buffer.totalLines
          let newX := min cc.wanted_x (max (buffer.lineLen (newY - 1)) 1)
          (ed.setCur { cc with y := newY, x := newX }, st, true)
        else (ed, st, true)
      | Object.InsertLineUp =>
        let buffer := buffer.insertEmptyLine cursor.line
        let r :=
          match indent_wanted cursor.line buffer with
          | some indent =>
            (buffer.insertIntoLine cursor.line 0 (List.replicate indent 32), indent + 1)
          | none => (buffer, 1)
        let ed := (ed.setBuf r.1).setCur { cc with x := r.2, wanted_x := r.2 }
        ({ ed with mode := EditorMode.Insert }, st, true)
      | Object.InsertLineDown =>
        let buffer := buffer.insertEmptyLine (cursor.line + 1)
        let r :=
          match indent_wanted (cursor.line + 1) buffer with
          | some indent =>
            (buffer.insertIntoLine (cursor.line + 1) 0 (List.replicate indent 32), indent + 1)
          | none => (buffer, 0)
        let ed := (ed.setBuf r.1).setCur { cc with x := r.2, wanted_x := r.2, y := cc.y + 1 }
        ({ ed with mode := EditorMode.Insert }, st, true)
  | _, _ => (ed, st, true)

/-- The keystroke loop of the Normal/Visual/VisualLine branch of
`handle_input`: parse each character into the pending motion, dispatch,
clear the motion when the dispatch consumed it. -/
def handleCharsLoop : Editor → State → List Char → Editor × State
  | ed, st, [] => (ed, st)
  | ed, st, c :: t =>
    let ed := { ed with motion := ed.motion.parse c ed.mode }
    let r := executeCmd ed st
    let ed := if r.2.2 then { r.1 with motion := r.1.motion.clear } else r.1
    handleCharsLoop ed r.2.1 t

/-- The result variants of a command-bar handler (`CommandBarAction`). -/
inductive CommandBarAction where
  | NoneA
  | Quit
  | NewBuffer (buf : TextBuffer)
  | SwitchToBuffer (n : Nat)

/-- Modelled from the spec: buffer file paths and file loading live in the
external persistence collaborator (`TextBuffer::from_path` and
`file_path` are absent from the embedded source), so the buffer-producing
effect of `edit` is supplied by an oracle `fs` mapping the argument string
to the resulting action.  `write` serializes the buffer externally and
returns `None`; `quit` raises the process-wide quit flag and returns
`None`. -/
def runCmd (fs : List Char → CommandBarAction) (n : Nat) (args : List Char) (st : State) :
    Except Unit (CommandBarAction × State) :=
  if cmdIsEdit n then Except.ok (fs args, st)
  else if cmdIsQuit n then Except.ok (CommandBarAction.NoneA, { st with should_quit := true })
  else Except.ok (CommandBarAction.NoneA, st)

/-- `str::splitn(2, " ")`: the text before the first space, and (when a
space exists) everything after it. -/
def splitnFirst (l : List Char) : List Char × Option (List Char) :=
  match l.findIdx? (· = ' ') with
  | none => (l, none)
  | some i => (l.take i, some (l.drop (i + 1)))

/-- The Insert-mode branch of `handle_input`. -/
def insertModeStep (ed : Editor) (st : State) (buffer : TextBuffer) (cc : CursorPos) :
    Editor × State :=
  let io := st.io
  let line := cc.y - 1
  let (buffer, cc) :=
    if io.chars ≠ [] then
      (buffer.insertIntoLine line (cc.x - 1) (encodeChars io.chars),
       { cc with x := cc.x + io.chars.length })
    else (buffer, cc)
  let (buffer, cc) :=
    if io.pressedSpecial SpecialKey.Enter then
      let lineLength := buffer.lineLen line
      let buffer :=
        if lineLength - (cc.x - 1) > 0 then buffer.splitLineAtIndex line (cc.x - 1)
        else buffer.insertEmptyLine cc.y
      let cc := { cc with y := cc.y + 1, x := 1 }
      match indent_wanted (line + 1) buffer with
      | some indent =>
        if indent > 0 then
          (buffer.insertIntoLine (line + 1) 0 (List.replicate indent 32),
           { cc with x := indent + 1, wanted_x := indent + 1 })
        else (buffer, cc)
      | none => (buffer, cc)
    else (buffer, cc)
  let (buffer, cc) :=
    if io.pressedSpecial SpecialKey.Tab then
      (buffer.insertIntoLine line (cc.x - 1) (List.replicate 4 32),
       { cc with x := cc.x + 4, wanted_x := cc.x + 4 })
    else (buffer, cc)
  let (mode, cc) :=
    if io.pressedSpecial SpecialKey.Escape then
      let newX := max (cc.x - 1) 1
      (EditorMode.Normal, { cc with x := newX, wanted_x := newX })
    else (ed.mode, cc)
  let (buffer, cc) :=
    if io.pressedSpecial SpecialKey.Backspace then
      let rowLen := buffer.lineLen line
      if rowLen > 0 ∧ cc.x > 1 then
        (buffer.removeFromLine line (cc.x - 2) 1,
         { cc with x := cc.x - 1, wanted_x := cc.x - 1 })
      else if cc.x = 1 ∧ cc.y > 1 then
        let nextX := buffer.lineLen (line - 1)
        (buffer.removeLineSep (line - 1),
         { cc with x := nextX + 1, wanted_x := nextX + 1, y := cc.y - 1 })
      else (buffer, cc)
    else (buffer, cc)
  ((({ ed with mode := mode }).setBuf buffer).setCur cc, st)

/-- The Search-mode branch of `handle_input`. -/
def searchModeStep (ed : Editor) (st : State) (buffer : TextBuffer) (cc : CursorPos) :
    Editor × State :=
  let io := st.io
  let (ed, st) :=
    if io.chars ≠ [] then
      let input := ed.command_bar_input ++ io.chars
      let results := search (encodeChars (input.drop 1)) buffer
      ({ ed with command_bar_input := input, search_results := results },
       { st with cmd_bar_cursor_x := st.cmd_bar_cursor_x + 1 })
    else (ed, st)
  let (ed, st) :=
    if io.pressedSpecial SpecialKey.Backspace then
      ({ ed with command_bar_input := ed.command_bar_input.dropLast },
       { st with cmd_bar_cursor_x := st.cmd_bar_cursor_x - 1 })
    else (ed, st)
  let ed :=
    if io.pressedSpecial SpecialKey.Enter then
      let ed :=
        match closest_position cc.toLinepos ed.search_results with
        | some pos => ed.setCur (cc.fromLinepos pos)
        | none => ed
      { ed with command_bar_input := [], mode := EditorMode.Normal }
    else ed
  let ed :=
    if io.pressedSpecial SpecialKey.Escape then
      { ed with command_bar_input := [], mode := EditorMode.Normal }
    else ed
  let ed := if ed.command_bar_input.isEmpty then { ed with mode := EditorMode.Normal } else ed
  (ed, st)

/-- The CommandBar branch of `handle_input`.  The `let Some(func) = ...
else { return }` in the source leaves the whole tick early (skipping the
Backspace / Escape / auto-revert checks); `match_cmd`'s out-of-bounds
lookup and the `todo!()` arms become `Except.error`. -/
def commandBarStep (fs : List Char → CommandBarAction) (ed : Editor) (st : State) :
    Except Unit (Editor × State) :=
  let io := st.io
  let (ed, st) :=
    if io.chars ≠ [] then
      ({ ed with command_bar_input := ed.command_bar_input ++ io.chars },
       { st with cmd_bar_cursor_x := st.cmd_bar_cursor_x + io.chars.length })
    else (ed, st)
  let enterRes : Except Unit (Editor × State × Bool) :=
    if io.pressedSpecial SpecialKey.Enter then
      let parts := splitnFirst ed.command_bar_input
      match match_cmd (parts.1.drop 1) with
      | Except.error _ => Except.error ()
      | Except.ok none => Except.ok (ed, st, true)
      | Except.ok (some n) =>
        let args := parts.2.getD []
        match runCmd fs n args st with
        | Except.error _ => Except.error ()
        | Except.ok (act, st) =>
          match act with
          | CommandBarAction.Quit => Except.error ()
          | CommandBarAction.NewBuffer buf =>
            let ed := { ed with cursors := ed.cursors ++ [CursorPos.new 0],
                                buffers := ed.buffers ++ [buf] }
            let ed := { ed with current_buffer := ed.buffers.length - 1 }
            Except.ok ({ ed with command_bar_input := [], mode := EditorMode.Normal },
                       { st with cmd_bar_cursor_x := 1 }, false)
          | CommandBarAction.SwitchToBuffer b =>
            Except.ok ({ ed with current_buffer := b,
                                 command_bar_input := [], mode := EditorMode.Normal },
                       { st with cmd_bar_cursor_x := 1 }, false)
          | CommandBarAction.NoneA =>
            Except.ok ({ ed with command_bar_input := [], mode := EditorMode.Normal },
                       { st with cmd_bar_cursor_x := 1 }, false)
    else Except.ok (ed, st, false)
  match enterRes with
  | Except.error e => Except.error e
  | Except.ok (ed, st, early) =>
    if early then Except.ok (ed, st)
    else
      let (ed, st) :=
        if io.pressedSpecial SpecialKey.Backspace then
          ({ ed with command_bar_input := ed.command_bar_input.dropLast },
           { st with cmd_bar_cursor_x := st.cmd_bar_cursor_x - 1 })
        else (ed, st)
      let ed :=
        if io.pressedSpecial SpecialKey.Escape then
          { ed with command_bar_input := [], mode := EditorMode.Normal }
        else ed
      let ed := if ed.command_bar_input.isEmpty then { ed with mode := EditorMode.Normal } else ed
      Except.ok (ed, st)

/-- `Editor::handle_input`. -/
def handleInput (fs : List Char → CommandBarAction) (ed : Editor) (st : State) :
    Except Unit (Editor × State) :=
  match ed.buffers.get? ed.current_buffer, ed.cursors.get? ed.current_buffer with
  | some buffer, some cc =>
    if ed.mode = EditorMode.Insert then
      Except.ok (insertModeStep ed st buffer cc)
    else if ed.mode = EditorMode.CommandBar then
      commandBarStep fs ed st
    else if ed.mode = EditorMode.Search then
      Except.ok (searchModeStep ed st buffer cc)
    else
      let r := handleCharsLoop ed st st.io.chars
      let ed := r.1
      let st := r.2
      let ed :=
        if st.io.pressedSpecial SpecialKey.Escape then
          { ed with motion := ed.motion.clear, mode := EditorMode.Normal }
        else ed
      Except.ok (ed, st)
  | _, _ => Except.ok (ed, st)

/-!
## Lemmas

General-purpose list lemmas, the refinement theory of the gap buffer, and
the well-formedness theory of the text store.
-/

theorem take_append_big {T : Type} (X C : List T) (n : Nat) (h : X.length ≤ n) :
    (X ++ C).take n = X ++ C.take (n - X.length) := by
  conv_lhs => rw [show n = X.length + (n - X.length) from by omega, List.take_append]

theorem drop_append_big {T : Type} (X C : List T) (n : Nat) (h : X.length ≤ n) :
    (X ++ C).drop n = C.drop (n - X.length) := by
  conv_lhs => rw [show n = X.length + (n - X.length) from by omega, List.drop_append]

theorem take_logical_le {T : Type} (data : List T) (gs ge n : Nat) (hn : n ≤ gs)
    (h2 : gs ≤ data.length) :
    (data.take gs ++ data.drop ge).take n = data.take n := by
  rw [List.take_append_of_le_length (by simp [min_eq_left h2]; omega), List.take_take,
      min_eq_left hn]

theorem take_logical_ge {T : Type} (data : List T) (gs ge n : Nat) (hn : gs ≤ n)
    (h2 : gs ≤ data.length) :
    (data.take gs ++ data.drop ge).take n = data.take gs ++ (data.drop ge).take (n - gs) := by
  rw [take_append_big _ _ _ (by simp [min_eq_left h2]; omega), List.length_take,
      min_eq_left h2]

theorem drop_logical_le {T : Type} (data : List T) (gs ge n : Nat) (hn : n ≤ gs)
    (h2 : gs ≤ data.length) :
    (data.take gs ++ data.drop ge).drop n = (data.take gs).drop n ++ data.drop ge := by
  rw [List.drop_append_of_le_length (by simp [min_eq_left h2]; omega)]

theorem drop_logical_ge {T : Type} (data : List T) (gs ge n : Nat) (hn : gs ≤ n)
    (h2 : gs ≤ data.length) :
    (data.take gs ++ data.drop ge).drop n = data.drop (ge + (n - gs)) := by
  rw [drop_append_big _ _ _ (by simp [min_eq_left h2]; omega), List.length_take,
      min_eq_left h2, List.drop_drop, Nat.add_comm]

/-- `GapBuffer::remove` on a well-formed buffer with an in-range span
removes exactly the logical elements `[frm, frm+len)` and preserves the
invariant. -/
theorem remove_logical {T : Type} (gb : GapBuffer T) (frm len : Nat)
    (hwf : gb.wf) (hle : frm + len ≤ gb.len) :
    (gb.remove frm len).logical = gb.logical.take frm ++ gb.logical.drop (frm + len) ∧
    (gb.remove frm len).wf := by
  obtain ⟨data, gs, ge⟩ := gb
  obtain ⟨h1, h2⟩ := hwf
  have hgsl : gs ≤ data.length := le_trans h1 h2
  simp only [GapBuffer.wf, GapBuffer.len, GapBuffer.logical] at *
  unfold GapBuffer.remove
  by_cases hg : ge - gs = 0
  · have hge : ge = gs := by omega
    rw [if_pos hg]
    subst hge
    simp only [GapBuffer.logical, GapBuffer.wf, List.take_append_drop]
    exact ⟨trivial, by omega⟩
  · rw [if_neg hg]
    by_cases hfs : frm < gs
    · rw [if_pos hfs, if_neg (by omega : ¬ (frm = ge))]
      by_cases hB : frm + len = gs
      · rw [if_pos hB]
        simp only [GapBuffer.logical, GapBuffer.wf]
        refine ⟨?_, by omega⟩
        rw [take_logical_le data gs ge frm (by omega) hgsl, hB,
            drop_logical_ge data gs ge gs le_rfl hgsl]
        congr 2
        omega
      · rw [if_neg hB]
        by_cases hC : frm < gs ∧ frm + len > gs
        · rw [if_pos hC]
          simp only [GapBuffer.logical, GapBuffer.wf]
          refine ⟨?_, by omega⟩
          rw [take_logical_le data gs ge frm (by omega) hgsl,
              drop_logical_ge data gs ge (frm + len) (by omega) hgsl]
          congr 2
          omega
        · rw [if_neg hC, if_pos hfs]
          have hlt : frm + len < gs := by omega
          have hAB : ((data.take frm ++ (data.drop (frm + len)).take (gs - frm - len)) : List T).length
              = gs - len := by
            simp only [List.length_append, List.length_take, List.length_drop]
            omega
          simp only [GapBuffer.logical, GapBuffer.wf, moveBytes]
          constructor
          · rw [take_logical_le data gs ge frm (by omega) hgsl,
                drop_logical_le data gs ge (frm + len) (by omega) hgsl]
            conv_lhs => rw [show frm + (gs - frm - len) = gs - len from by omega]
            rw [List.take_append_of_le_length (le_of_eq hAB.symm),
                List.take_of_length_le (le_of_eq hAB)]
            rw [drop_append_big _ _ _ (by rw [hAB]; omega), hAB, List.drop_drop,
                show gs - len + (ge - (gs - len)) = ge from by omega,
                show gs - frm - len = gs - (frm + len) from by omega,
                ← List.drop_take, List.append_assoc]
          · simp only [GapBuffer.wf, moveBytes, List.length_append, List.length_take,
              List.length_drop]
            omega
    · rw [if_neg hfs]
      by_cases hA : frm + (ge - gs) = ge
      · rw [if_pos hA]
        have hfg : frm = gs := by omega
        subst hfg
        simp only [GapBuffer.logical, GapBuffer.wf]
        refine ⟨?_, by omega⟩
        rw [take_logical_le data frm ge frm le_rfl hgsl,
            drop_logical_ge data frm ge (frm + len) (by omega) hgsl]
        congr 2
        omega
      · rw [if_neg hA, if_neg (by omega : ¬ (frm + (ge - gs) + len = gs)),
            if_neg (by push_neg; omega : ¬ (frm + (ge - gs) < gs ∧ frm + (ge - gs) + len > gs)),
            if_neg (by omega : ¬ (frm + (ge - gs) < gs))]
        have hfrm : gs < frm := by omega
        have hAB : ((data.take gs ++ (data.drop ge).take (frm - gs)) : List T).length = frm := by
          simp only [List.length_append, List.length_take, List.length_drop]
          omega
        simp only [GapBuffer.logical, GapBuffer.wf, moveBytes]
        constructor
        · rw [take_logical_ge data gs ge frm (by omega) hgsl,
              drop_logical_ge data gs ge (frm + len) (by omega) hgsl]
          conv_lhs => rw [show frm + (ge - gs) - ge = frm - gs from by omega,
                          show gs + (frm - gs) = frm from by omega]
          rw [List.take_append_of_le_length (le_of_eq hAB.symm),
              List.take_of_length_le (le_of_eq hAB)]
          rw [drop_append_big _ _ _ (by rw [hAB]; omega), hAB, List.drop_drop]
          congr 2
          omega
        · simp only [List.length_append, List.length_take, List.length_drop]
          omega

/-- `GapBuffer::grow` preserves the logical contents, the invariant, the gap
start and the logical length, and leaves a gap at least `addl` wide. -/
theorem grow_logical {T : Type} [Inhabited T] (gb : GapBuffer T) (addl : Nat) (hwf : gb.wf) :
    (gb.grow addl).logical = gb.logical ∧ (gb.grow addl).wf ∧
    (gb.grow addl).gap_start = gb.gap_start ∧
    addl ≤ (gb.grow addl).gap_end - (gb.grow addl).gap_start ∧
    (gb.grow addl).len = gb.len := by
  obtain ⟨data, gs, ge⟩ := gb
  obtain ⟨h1, h2⟩ := hwf
  dsimp only at h1 h2
  unfold GapBuffer.grow
  dsimp only
  have hng : ¬ (ge > data.length) := by omega
  rw [if_neg hng]
  set ncap := max (2 * data.length) (data.length + addl) with hncap
  have hcap : data.length + addl ≤ ncap := le_max_right _ _
  set added := ncap - data.length with hadded
  set dataJ : List T := data ++ List.replicate added default with hdj
  have hdjlen : dataJ.length = ncap := by simp [hdj]; omega
  have hmv : moveBytes dataJ ge (ge + added) (data.length - ge)
      = (data ++ (List.replicate added default).take (ge + added - data.length)) ++ data.drop ge := by
    unfold moveBytes
    have ht1 : dataJ.take (ge + added)
        = data ++ (List.replicate added default).take (ge + added - data.length) := by
      rw [hdj, List.take_append_eq_append_take, List.take_of_length_le (by omega)]
    have hm1 : (dataJ.drop ge).take (data.length - ge) = data.drop ge := by
      rw [hdj, List.drop_append_of_le_length h2, List.take_append_of_le_length (by simp),
          List.take_of_length_le (by simp)]
    have ht2 : dataJ.drop (ge + added + (data.length - ge)) = [] := by
      apply List.drop_of_length_le
      omega
    rw [ht1, hm1, ht2, List.append_nil]
  rw [hmv]
  have hA : ((data ++ (List.replicate added default).take (ge + added - data.length)) : List T).length
      = ge + added := by
    simp only [List.length_append, List.length_take, List.length_replicate]
    omega
  refine ⟨?_, ⟨by show gs ≤ ge + added; omega, ?_⟩, rfl,
    by show addl ≤ ge + added - gs; omega, ?_⟩
  · simp only [GapBuffer.logical]
    rw [List.take_append_of_le_length (by rw [hA]; omega),
        List.take_append_of_le_length (by omega),
        drop_append_big _ _ _ (le_of_eq hA), hA, Nat.sub_self, List.drop_zero]
  · show ge + added ≤ _
    simp only [List.length_append, List.length_take, List.length_drop, List.length_replicate]
    omega
  · simp only [GapBuffer.len]
    show _ - _ = _
    simp only [List.length_append, List.length_take, List.length_drop, List.length_replicate]
    omega

/-- When the gap is too small, `insert` proceeds exactly as `insert` on the
grown buffer (whose gap is wide enough). -/
theorem insert_grow_step {T : Type} [Inhabited T] (gb : GapBuffer T) (index : Nat) (d : List T)
    (h : gb.gap_end - gb.gap_start < d.length)
    (h2 : ¬ ((gb.grow d.length).gap_end - (gb.grow d.length).gap_start < d.length)) :
    gb.insert index d = (gb.grow d.length).insert index d := by
  conv_lhs => unfold GapBuffer.insert
  conv_rhs => unfold GapBuffer.insert
  rw [if_pos h, if_neg h2]

/-- `GapBuffer::insert` with a wide-enough gap splices `d` at logical
position `index`. -/
theorem insert_logical_aux {T : Type} [Inhabited T] (gb : GapBuffer T) (index : Nat) (d : List T)
    (hwf : gb.wf) (hidx : index ≤ gb.len) (hgap : d.length ≤ gb.gap_end - gb.gap_start) :
    (gb.insert index d).logical = gb.logical.take index ++ d ++ gb.logical.drop index ∧
    (gb.insert index d).wf ∧ (gb.insert index d).len = gb.len + d.length := by
  obtain ⟨data, gs, ge⟩ := gb
  obtain ⟨h1, h2⟩ := hwf
  simp only [GapBuffer.wf, GapBuffer.len, GapBuffer.logical] at *
  have hgsl : gs ≤ data.length := le_trans h1 h2
  unfold GapBuffer.insert
  dsimp only
  rw [if_neg (by omega : ¬ (ge - gs < d.length))]
  by_cases hc1 : gs = index
  · rw [if_pos hc1]
    subst hc1
    simp only [GapBuffer.logical, GapBuffer.wf, GapBuffer.len, writeSlice]
    have hAB : ((data.take gs ++ d) : List T).length = gs + d.length := by
      simp only [List.length_append, List.length_take]
      omega
    refine ⟨?_, ⟨by omega, ?_⟩, ?_⟩
    · rw [List.take_append_of_le_length (le_of_eq hAB.symm),
          List.take_of_length_le (le_of_eq hAB),
          drop_append_big _ _ _ (by rw [hAB]; omega), hAB, List.drop_drop]
      rw [take_logical_le data gs ge gs le_rfl hgsl,
          drop_logical_ge data gs ge gs le_rfl hgsl]
      congr 2
      omega
    · simp only [List.length_append, List.length_take, List.length_drop]
      omega
    · simp only [List.length_append, List.length_take, List.length_drop]
      omega
  · rw [if_neg hc1]
    by_cases hc2 : index > gs
    · rw [if_pos hc2]
      have hk : ge + (index - gs) ≤ data.length := by omega
      have hmv : moveBytes data ge gs (index - gs)
          = data.take gs ++ (data.drop ge).take (index - gs) ++ data.drop index := by
        unfold moveBytes
        congr 1
        congr 1
        omega
      rw [hmv]
      have hA : ((data.take gs ++ (data.drop ge).take (index - gs)) : List T).length
          = index := by
        simp only [List.length_append, List.length_take, List.length_drop]
        omega
      simp only [GapBuffer.logical, GapBuffer.wf, GapBuffer.len, writeSlice]
      have hAd : ((data.take gs ++ (data.drop ge).take (index - gs) ++ d) : List T).length
          = index + d.length := by
        simp only [List.length_append, List.length_take, List.length_drop]
        omega
      have hts : ((data.take gs ++ (data.drop ge).take (index - gs)
            ++ data.drop index) : List T).take index
          = data.take gs ++ (data.drop ge).take (index - gs) := by
        rw [List.take_append_of_le_length (le_of_eq hA.symm),
            List.take_of_length_le (le_of_eq hA)]
      have hds : ((data.take gs ++ (data.drop ge).take (index - gs)
            ++ data.drop index) : List T).drop (index + d.length)
          = data.drop (index + d.length) := by
        rw [drop_append_big _ _ _ (by rw [hA]; omega), hA,
            show index + d.length - index = d.length from by omega, List.drop_drop]
      rw [hts, hds]
      refine ⟨?_, ⟨by omega, ?_⟩, ?_⟩
      · rw [List.take_append_of_le_length (le_of_eq hAd.symm),
            List.take_of_length_le (le_of_eq hAd)]
        rw [drop_append_big _ _ _ (by rw [hAd]; omega), hAd, List.drop_drop]
        rw [take_logical_ge data gs ge index (le_of_lt hc2) hgsl,
            drop_logical_ge data gs ge index (le_of_lt hc2) hgsl]
        congr 2
        omega
      · simp only [List.length_append, List.length_take, List.length_drop]
        omega
      · simp only [List.length_append, List.length_take, List.length_drop]
        omega
    · rw [if_neg hc2]
      have hil : index < gs := by omega
      have hig : index + (ge - gs) ≤ data.length := by omega
      have hmv : moveBytes data index (index + (ge - gs)) (gs - index)
          = data.take (index + (ge - gs)) ++ (data.drop index).take (gs - index)
            ++ data.drop ge := by
        unfold moveBytes
        congr 1
        congr 1
        omega
      rw [hmv]
      have hA1 : ((data.take (index + (ge - gs))) : List T).length = index + (ge - gs) := by
        simp only [List.length_take]
        omega
      simp only [GapBuffer.logical, GapBuffer.wf, GapBuffer.len, writeSlice]
      have hl1 : index ≤ ((data.take (index + (ge - gs))
          ++ (data.drop index).take (gs - index)) : List T).length := by
        simp only [List.length_append, List.length_take, List.length_drop]
        omega
      have hl2 : index ≤ ((data.take (index + (ge - gs))) : List T).length := by
        rw [hA1]
        omega
      have hts : ((data.take (index + (ge - gs)) ++ (data.drop index).take (gs - index)
            ++ data.drop ge) : List T).take index = data.take index := by
        rw [List.take_append_of_le_length hl1, List.take_append_of_le_length hl2,
            List.take_take]
        rw [min_eq_left (by omega : index ≤ index + (ge - gs))]
      have hd1 : index + d.length ≤ ((data.take (index + (ge - gs))
          ++ (data.drop index).take (gs - index)) : List T).length := by
        simp only [List.length_append, List.length_take, List.length_drop]
        omega
      have hd2 : index + d.length ≤ ((data.take (index + (ge - gs))) : List T).length := by
        rw [hA1]
        omega
      have hds : ((data.take (index + (ge - gs)) ++ (data.drop index).take (gs - index)
            ++ data.drop ge) : List T).drop (index + d.length)
          = (data.drop (index + d.length)).take (index + (ge - gs) - (index + d.length))
            ++ (data.drop index).take (gs - index) ++ data.drop ge := by
        rw [List.drop_append_of_le_length hd1, List.drop_append_of_le_length hd2,
            List.drop_take]
      rw [hts, hds]
      have hAd : ((data.take index ++ d) : List T).length = index + d.length := by
        simp only [List.length_append, List.length_take]
        omega
      have hA2 : (((data.drop (index + d.length)).take
            (index + (ge - gs) - (index + d.length))) : List T).length
          = index + (ge - gs) - (index + d.length) := by
        simp only [List.length_take, List.length_drop]
        omega
      have hd3 : index + (ge - gs) - (index + d.length)
          ≤ (((data.drop (index + d.length)).take (index + (ge - gs) - (index + d.length))
              ++ (data.drop index).take (gs - index)) : List T).length := by
        simp only [List.length_append, List.length_take, List.length_drop]
        omega
      refine ⟨?_, ⟨by omega, ?_⟩, ?_⟩
      · rw [List.take_append_of_le_length (le_of_eq hAd.symm),
            List.take_of_length_le (le_of_eq hAd)]
        rw [drop_append_big _ _ _ (by rw [hAd]; omega), hAd]
        rw [List.drop_append_of_le_length hd3]
        rw [drop_append_big _ _ _ (le_of_eq hA2), hA2, Nat.sub_self, List.drop_zero]
        rw [take_logical_le data gs ge index (le_of_lt hil) hgsl,
            drop_logical_le data gs ge index (le_of_lt hil) hgsl,
            List.drop_take]
      · simp only [List.length_append, List.length_take, List.length_drop]
        omega
      · simp only [List.length_append, List.length_take, List.length_drop]
        omega

/-- `GapBuffer::insert` on a well-formed buffer splices `d` at logical
position `index` and preserves the invariant. -/
theorem insert_logical {T : Type} [Inhabited T] (gb : GapBuffer T) (index : Nat) (d : List T)
    (hwf : gb.wf) (hidx : index ≤ gb.len) :
    (gb.insert index d).logical = gb.logical.take index ++ d ++ gb.logical.drop index ∧
    (gb.insert index d).wf ∧ (gb.insert index d).len = gb.len + d.length := by
  by_cases hg : gb.gap_end - gb.gap_start < d.length
  · obtain ⟨hl, hw, hgs, hgap, hlen⟩ := grow_logical gb d.length hwf
    rw [insert_grow_step gb index d hg (by omega)]
    have h := insert_logical_aux (gb.grow d.length) index d hw (by rw [hlen]; exact hidx)
      (by omega)
    rw [hl, hlen] at h
    exact h
  · exact insert_logical_aux gb index d hwf hidx (by omega)

/-- The loop accumulator of `vim_commands::count` never moves from a
successful position back to failure: threading a `some` default through
`countGo` only changes the all-failures outcome. -/
theorem countGo_absorb (buf : TextBuffer) (f : LinePos → TextBuffer → Option LinePos)
    (c : LinePos) (l : Option LinePos) (n : Nat) :
    countGo buf f c l n = match countGo buf f c none n with
                          | none => l
                          | some r => some r := by
  induction n generalizing c l with
  | zero => simp [countGo]
  | succ n ih =>
    simp only [countGo]
    cases h : f c buf with
    | none => simp
    | some p =>
      dsimp only
      rw [ih p (some p)]
      cases countGo buf f p none n <;> simp

/-!
## Claim theorems
-/

/-- C8: for every single-step finder `f`, start `p`, buffer `b` and count
`n ≥ 1`, `count` chains `f` up to `n` times feeding each successful result
into the next call; it returns `none` exactly when the first repetition
fails, and otherwise stops at a failing repetition returning the last
successful intermediate position (captured by the unfolding recurrence). -/
theorem C8_count_repeat_and_chain (f : LinePos → TextBuffer → Option LinePos)
    (p : LinePos) (b : TextBuffer) (n : Nat) (hn : 1 ≤ n) :
    (count p b n f = none ↔ f p b = none) ∧
    (count p b (n + 1) f =
      match f p b with
      | none => none
      | some q =>
        match count q b n f with
        | none => some q
        | some r => some r) := by
  obtain ⟨m, rfl⟩ : ∃ m, n = m + 1 := ⟨n - 1, by omega⟩
  constructor
  · unfold count
    simp only [countGo]
    cases h : f p b with
    | none => simp
    | some q =>
      dsimp only
      rw [countGo_absorb b f q (some q) m]
      cases countGo b f q none m <;> simp
  · unfold count
    simp only [countGo]
    cases h : f p b with
    | none => simp
    | some q =>
      dsimp only
      cases h2 : f q b with
      | none => simp
      | some r =>
        dsimp only
        rw [countGo_absorb b f r (some r) m]
        cases countGo b f r none m <;> simp

/-- Witness for C8: on the buffer `"foo bar"` from (0,0), one `w` step
lands at column 4, and a count of 2 keeps that last successful position
because the second repetition finds no further word. -/
theorem C8_count_repeat_and_chain_witness :
    count ⟨0, 0⟩ (TextBuffer.fromData (("foo bar".toList).map Char.toNat)) (1 + 1)
      find_next_word_start = some ⟨0, 4⟩ := by
  have h := (C8_count_repeat_and_chain find_next_word_start ⟨0, 0⟩
    (TextBuffer.fromData (("foo bar".toList).map Char.toNat)) 1 (by decide)).2
  rw [h]
  decide

/-- C10: for every current editor mode — Visual included — parsing `v`
leaves the pending object `VisualMode` (the `NormalMode` assignment taken
in Visual mode is unconditionally overwritten), so `v` re-enters Visual
rather than returning to Normal; likewise `V` in VisualLine mode leaves
`VisualLineMode`. -/
theorem C10_parse_v_reenters_visual (m : Motion) (mode : EditorMode) :
    (m.parse 'v' mode).object = some Object.VisualMode ∧
    (m.parse 'V' mode).object = some Object.VisualLineMode := by
  cases mode <;> constructor <;> simp [Motion.parse]

/-- C2: the gap array loaded from `"test data for myself"` yields
`"test for myself"` after `remove(5,5)` and `"test for elf"` after a
further `remove(9,3)`; in general, on a well-formed buffer, `remove(from,
len)` deletes exactly the `len` logical elements starting at `from`,
leaving all others in order, and preserves well-formedness. -/
theorem C2_gap_remove_deletes_span :
    (((GapBuffer.new (("test data for myself".toList).map Char.toNat)).remove 5 5).logical
      = ("test for myself".toList).map Char.toNat) ∧
    ((((GapBuffer.new (("test data for myself".toList).map Char.toNat)).remove 5 5).remove 9 3).logical
      = ("test for elf".toList).map Char.toNat) ∧
    ∀ (T : Type) (gb : GapBuffer T) (frm len : Nat),
      gb.wf → frm + len ≤ gb.len →
      (gb.remove frm len).logical = gb.logical.take frm ++ gb.logical.drop (frm + len) ∧
      (gb.remove frm len).wf :=
  ⟨by decide, by decide, fun _ gb frm len hwf hle => remove_logical gb frm len hwf hle⟩

/-- Witness for C2: the general span-removal law evaluated on `[1,2,3,4]`
with `remove(1,2)`. -/
theorem C2_gap_remove_deletes_span_witness :
    ((GapBuffer.new [1, 2, 3, 4]).remove 1 2).logical = [1, 4] := by
  have h := (C2_gap_remove_deletes_span.2.2 Nat (GapBuffer.new [1, 2, 3, 4]) 1 2
    (by decide) (by decide)).1
  rw [h]
  decide

/-- C3 (code-bug evidence): on the buffer `"testiä"` — the input of the
repository's own `test_rev_char_iter` — the forward iterator from the
start decodes the full character sequence, but the backward iterator
anchored at (0,5) skips one character too many (its skip count adds a
separator length the last line does not carry), so the reversed backward
traversal drops the final `ä` and fails to reproduce the forward one. -/
theorem C3_rev_iter_skips_last_char :
    collectFwd (TextBuffer.fromData (encodeChars ("testiä".toList))).chars
      ((TextBuffer.fromData (encodeChars ("testiä".toList))).utf8IterFrom ⟨0, 0⟩) 8
      = "testiä".toList ∧
    collectRev (TextBuffer.fromData (encodeChars ("testiä".toList))).chars
      ((TextBuffer.fromData (encodeChars ("testiä".toList))).utf8RevIterFrom ⟨0, 5⟩) 8
      = ['i', 't', 's', 'e', 't'] ∧
    (collectRev (TextBuffer.fromData (encodeChars ("testiä".toList))).chars
      ((TextBuffer.fromData (encodeChars ("testiä".toList))).utf8RevIterFrom ⟨0, 5⟩) 8).reverse
      ≠ "testiä".toList := by
  refine ⟨by decide, by decide, by decide⟩

/-- C9 (code-bug evidence): on the buffer `"a\n\nb"` with the cursor at
its home position, the keystrokes `2`,`G` (GOTO line 2, an empty line)
clamp the cursor column to the empty line's length without the `.max(1)`
floor, leaving `x = 0` — violating the 1-indexed cursor invariant (a
subsequent `to_linepos` underflows). -/
theorem C9_goto_empty_line_zeroes_cursor_x :
    (match handleInput (fun _ => CommandBarAction.NoneA)
        { buffers := [TextBuffer.fromData (encodeChars ("a\n\nb".toList))],
          cursors := [CursorPos.new 0], current_buffer := 0, search_results := [],
          command_bar_input := [], visual_range_anchor := ⟨0, 0⟩,
          motion := Motion.new, mode := EditorMode.Normal }
        { io := { chars := "2G".toList, special_keys := [] }, cmd_bar_cursor_x := 0,
          start_line := 0, maxRowsVal := 40, should_quit := false } with
     | Except.ok (ed, _) => ((ed.cursors.getD 0 (CursorPos.new 0)).x,
                             (ed.cursors.getD 0 (CursorPos.new 0)).y)
     | Except.error _ => (1, 1)) = (0, 2) := by decide

/-- C7 (code-bug evidence): pressing Enter on the command-bar input `:f`
(no table entry matches `f` and `f` is a prefix of none) leaves the mode
CommandBar with the input and the buffer list untouched — the dispatcher
returns early instead of reverting to Normal; and for an input sorting
after every table entry (`z`) the lookup indexes the table out of bounds
(a panic, `Except.error`). -/
theorem C7_unrecognized_cmd_keeps_command_bar_mode :
    (match handleInput (fun _ => CommandBarAction.NoneA)
        { buffers := [TextBuffer.fromData (encodeChars ("x".toList))],
          cursors := [CursorPos.new 0], current_buffer := 0, search_results := [],
          command_bar_input := ":f".toList, visual_range_anchor := ⟨0, 0⟩,
          motion := Motion.new, mode := EditorMode.CommandBar }
        { io := { chars := [], special_keys := [SpecialKey.Enter] }, cmd_bar_cursor_x := 2,
          start_line := 0, maxRowsVal := 40, should_quit := false } with
     | Except.ok (ed, _) => (ed.mode, ed.command_bar_input, ed.buffers)
     | Except.error _ => (EditorMode.Normal, [], []))
      = (EditorMode.CommandBar, ":f".toList,
         [TextBuffer.fromData (encodeChars ("x".toList))]) ∧
    match_cmd ("z".toList) = Except.error () := by
  refine ⟨by decide, by decide⟩

/-- C5: with Action=Delete, Object=Word and no modifier, the dispatcher
decrements the column of the position returned by `find_next_word_start`
(or wraps to the previous line's end when the column is 0) before applying
`remove_by_range`, so the landing character survives, and the cursor is
left in place; in particular on `"foo bar\nbaz\n"` with the cursor at
(0,0) the keys `d`,`w` remove exactly `"foo "`, leaving `"bar\nbaz\n"`
with the cursor still at (0,0) (1-indexed (1,1)). -/
theorem C5_delete_word_spares_landing_char :
    (∀ (ed : Editor) (st : State) (buffer : TextBuffer) (cc : CursorPos) (p : LinePos),
      ed.buffers.get? ed.current_buffer = some buffer →
      ed.cursors.get? ed.current_buffer = some cc →
      ed.motion = ⟨some Action.Delete, some Object.Word, none⟩ →
      find_next_word_start cc.toLinepos buffer = some p →
      executeCmd ed st =
        (ed.setBuf (buffer.removeByRange cc.toLinepos
          (if 0 < p.col then ⟨p.line, p.col - 1⟩
           else ⟨p.line - 1, buffer.lineLen (p.line - 1)⟩)), st, true) ∧
      (executeCmd ed st).1.cursors = ed.cursors) ∧
    (match handleInput (fun _ => CommandBarAction.NoneA)
        { buffers := [TextBuffer.fromData (encodeChars ("foo bar\nbaz\n".toList))],
          cursors := [CursorPos.new 0], current_buffer := 0, search_results := [],
          command_bar_input := [], visual_range_anchor := ⟨0, 0⟩,
          motion := Motion.new, mode := EditorMode.Normal }
        { io := { chars := "dw".toList, special_keys := [] }, cmd_bar_cursor_x := 0,
          start_line := 0, maxRowsVal := 40, should_quit := false } with
     | Except.ok (ed, _) =>
       ((ed.buffers.getD 0 (TextBuffer.fromData [])).chars.logical,
        (ed.cursors.getD 0 (CursorPos.new 0)).x, (ed.cursors.getD 0 (CursorPos.new 0)).y)
     | Except.error _ => ([], 0, 0))
      = (encodeChars ("bar\nbaz\n".toList), 1, 1) := by
  constructor
  · intro ed st buffer cc p hb hc hm hf
    have heq : executeCmd ed st =
        (ed.setBuf (buffer.removeByRange cc.toLinepos
          (if 0 < p.col then ⟨p.line, p.col - 1⟩
           else ⟨p.line - 1, buffer.lineLen (p.line - 1)⟩)), st, true) := by
      unfold executeCmd
      rw [hb, hc]
      simp only [hm, hf]
      by_cases hp : 0 < p.col
      · simp [hp, if_pos hp]
      · simp [hp]
    exact ⟨heq, by rw [heq]; rfl⟩
  · decide

theorem filter_le_length_mono (starts : List Nat) {i j : Nat} (h : i ≤ j) :
    (starts.filter (fun s => decide (s ≤ i))).length
      ≤ (starts.filter (fun s => decide (s ≤ j))).length := by
  induction starts with
  | nil => simp
  | cons a t ih =>
    simp only [List.filter]
    by_cases ha : a ≤ i
    · rw [decide_eq_true ha, decide_eq_true (le_trans ha h)]
      simpa using ih
    · rw [decide_eq_false ha]
      cases hb : decide (a ≤ j) <;> simp <;> omega

theorem countCharsUpTo_mono (tb : TextBuffer) (s : Nat) {i j : Nat} (h : i ≤ j) (fuel : Nat) :
    countCharsUpTo tb s i fuel ≤ countCharsUpTo tb s j fuel := by
  induction fuel generalizing s with
  | zero => simp [countCharsUpTo]
  | succ n ih =>
    simp only [countCharsUpTo]
    cases hn : utf8Next tb.chars s with
    | none => simp
    | some p =>
      dsimp only
      by_cases hk : p.2 ≤ i
      · rw [if_pos hk, if_pos (le_trans hk h)]
        exact Nat.add_le_add_left (ih p.2) 1
      · rw [if_neg hk]
        simp

theorem LinePos.le_def (a b : LinePos) :
    a ≤ b ↔ (a.line < b.line ∨ (a.line = b.line ∧ a.col ≤ b.col)) := Iff.rfl

/-- The modelled `byte_to_linepos` is monotone in the byte offset. -/
theorem byteToLinepos_mono (tb : TextBuffer) {i j : Nat} (h : i ≤ j) :
    tb.byteToLinepos i ≤ tb.byteToLinepos j := by
  unfold TextBuffer.byteToLinepos
  rw [LinePos.le_def]
  dsimp only
  have hf := filter_le_length_mono tb.lines.logical h
  rcases Nat.lt_or_ge ((tb.lines.logical.filter (fun s => decide (s ≤ i))).length - 1)
      ((tb.lines.logical.filter (fun s => decide (s ≤ j))).length - 1) with hlt | hge
  · exact Or.inl hlt
  · have heq : ((tb.lines.logical.filter (fun s => decide (s ≤ i))).length - 1)
        = ((tb.lines.logical.filter (fun s => decide (s ≤ j))).length - 1) := by omega
    rw [heq]
    exact Or.inr ⟨rfl, countCharsUpTo_mono tb _ h _⟩

theorem windowIdx_sorted (hay needle : List Nat) :
    List.Pairwise (· < ·) (windowIdx hay needle) := by
  unfold windowIdx
  split_ifs
  · simp
  · exact (List.pairwise_lt_range _).filter _

theorem windowIdx_mem (hay needle : List Nat) (i : Nat) :
    i ∈ windowIdx hay needle ↔
      needle ≠ [] ∧ i + needle.length ≤ hay.length ∧
        (hay.drop i).take needle.length = needle := by
  unfold windowIdx
  split_ifs with h
  · simp [List.length_eq_zero.mp h]
  · rw [List.mem_filter, List.mem_range]
    constructor
    · rintro ⟨hr, hs⟩
      refine ⟨fun hne => h (by simp [hne]), by omega, of_decide_eq_true hs⟩
    · rintro ⟨hne, hlen, hsl⟩
      exact ⟨by omega, decide_eq_true hsl⟩

/-- `search` returns its match positions sorted by (line, column). -/
theorem search_sorted (needle : List Nat) (tb : TextBuffer) :
    List.Sorted (· ≤ ·) (search needle tb) := by
  unfold search
  cases hv : tb.fullView with
  | Contiguous s =>
    exact (windowIdx_sorted s needle).map _
      (fun a b hab => byteToLinepos_mono tb (le_of_lt hab))
  | Parts s1 s2 =>
    refine List.pairwise_append.mpr ⟨?_, ?_, ?_⟩
    · exact (windowIdx_sorted s1 needle).map _
        (fun a b hab => byteToLinepos_mono tb (le_of_lt hab))
    · exact (windowIdx_sorted s2 needle).map _
        (fun a b hab => byteToLinepos_mono tb (by omega))
    · intro a ha b hb
      obtain ⟨ia, hia, rfl⟩ := List.mem_map.mp ha
      obtain ⟨ib, hib, rfl⟩ := List.mem_map.mp hb
      obtain ⟨hne, hlen, _⟩ := (windowIdx_mem s1 needle ia).mp hia
      have hle : ia ≤ ib + s1.length := by
        have : 0 < needle.length := List.length_pos.mpr hne
        omega
      exact byteToLinepos_mono tb hle

/-- A Search-mode keystroke recomputes `search_results` as a full scan for
the accumulated query (everything after the leading `/`). -/
theorem searchResults_after_key (ed : Editor) (st : State) (buffer : TextBuffer)
    (cc : CursorPos) (h : st.io.chars ≠ []) :
    (searchModeStep ed st buffer cc).1.search_results
      = search (encodeChars ((ed.command_bar_input ++ st.io.chars).drop 1)) buffer := by
  unfold searchModeStep
  dsimp only
  rw [if_pos h]
  dsimp only
  split_ifs <;>
    first
      | rfl
      | (cases closest_position cc.toLinepos
           (search (encodeChars ((ed.command_bar_input ++ st.io.chars).drop 1)) buffer) <;>
           rfl)

theorem search_complete_contiguous (needle : List Nat) (tb : TextBuffer) (s : List Nat) (i : Nat)
    (hv : tb.fullView = LineView.Contiguous s) (hne : needle ≠ [])
    (hlen : i + needle.length ≤ s.length) (hsl : (s.drop i).take needle.length = needle) :
    tb.byteToLinepos i ∈ search needle tb := by
  unfold search
  rw [hv]
  exact List.mem_map_of_mem _ ((windowIdx_mem s needle i).mpr ⟨hne, hlen, hsl⟩)

theorem search_complete_parts (needle : List Nat) (tb : TextBuffer) (s1 s2 : List Nat) (i : Nat)
    (hv : tb.fullView = LineView.Parts s1 s2) (hne : needle ≠ []) :
    (i + needle.length ≤ s1.length → (s1.drop i).take needle.length = needle →
      tb.byteToLinepos i ∈ search needle tb) ∧
    (i + needle.length ≤ s2.length → (s2.drop i).take needle.length = needle →
      tb.byteToLinepos (i + s1.length) ∈ search needle tb) := by
  unfold search
  rw [hv]
  constructor
  · intro hlen hsl
    exact List.mem_append_left _
      (List.mem_map_of_mem _ ((windowIdx_mem s1 needle i).mpr ⟨hne, hlen, hsl⟩))
  · intro hlen hsl
    exact List.mem_append_right _
      (List.mem_map_of_mem _ ((windowIdx_mem s2 needle i).mpr ⟨hne, hlen, hsl⟩))

/-- C6 (counterexample): on the buffer whose content is `"ad"` but whose
gap sits between the two bytes (reached from `"abcd"` by removing `"bc"`),
a Search-mode keystroke completing the query `ad` stores an empty result
list even though `ad` occurs in the buffer at (0,0) — the windows scan of
the two gap segments misses occurrences straddling the gap. -/
theorem C6_straddling_occurrence_missed :
    (match handleInput (fun _ => CommandBarAction.NoneA)
        { buffers := [(TextBuffer.fromData (encodeChars ("abcd".toList))).removeFromLine 0 1 2],
          cursors := [CursorPos.new 0], current_buffer := 0, search_results := [],
          command_bar_input := "/a".toList, visual_range_anchor := ⟨0, 0⟩,
          motion := Motion.new, mode := EditorMode.Search }
        { io := { chars := ['d'], special_keys := [] }, cmd_bar_cursor_x := 2,
          start_line := 0, maxRowsVal := 40, should_quit := false } with
     | Except.ok (ed, _) => ed.search_results
     | Except.error _ => [⟨9, 9⟩])
      = [] ∧
    ((TextBuffer.fromData (encodeChars ("abcd".toList))).removeFromLine 0 1 2).chars.logical
      = encodeChars ("ad".toList) ∧
    ((((TextBuffer.fromData (encodeChars ("abcd".toList))).removeFromLine 0 1 2).chars.logical.drop 0).take 2
      = encodeChars ("ad".toList)) := by
  refine ⟨by decide, by decide, by decide⟩

/-- C6 (amended): after every Search-mode keystroke the stored list equals
the full-buffer scan for the current query; that scan's list is sorted
ascending by (line, column) and contains the position of every occurrence
lying wholly inside one of the two contiguous storage segments around the
gap (occurrences straddling the gap are missed — see the counterexample). -/
theorem C6_search_results_sorted_segment_complete :
    (∀ (ed : Editor) (st : State) (buffer : TextBuffer) (cc : CursorPos),
      st.io.chars ≠ [] →
      (searchModeStep ed st buffer cc).1.search_results
        = search (encodeChars ((ed.command_bar_input ++ st.io.chars).drop 1)) buffer) ∧
    (∀ (needle : List Nat) (tb : TextBuffer), List.Sorted (· ≤ ·) (search needle tb)) ∧
    (∀ (needle : List Nat) (tb : TextBuffer) (s : List Nat) (i : Nat),
      tb.fullView = LineView.Contiguous s → needle ≠ [] →
      i + needle.length ≤ s.length → (s.drop i).take needle.length = needle →
      tb.byteToLinepos i ∈ search needle tb) ∧
    (∀ (needle : List Nat) (tb : TextBuffer) (s1 s2 : List Nat) (i : Nat),
      tb.fullView = LineView.Parts s1 s2 → needle ≠ [] →
      (i + needle.length ≤ s1.length → (s1.drop i).take needle.length = needle →
        tb.byteToLinepos i ∈ search needle tb) ∧
      (i + needle.length ≤ s2.length → (s2.drop i).take needle.length = needle →
        tb.byteToLinepos (i + s1.length) ∈ search needle tb)) :=
  ⟨searchResults_after_key, search_sorted, search_complete_contiguous, search_complete_parts⟩

/-- Witness for C6: on the contiguous buffer `"abcab"`, the occurrence of
`"ab"` at byte 3 is reported at its (line, column) position. -/
theorem C6_search_results_sorted_segment_complete_witness :
    (TextBuffer.fromData (encodeChars ("abcab".toList))).byteToLinepos 3
      ∈ search (encodeChars ("ab".toList))
        (TextBuffer.fromData (encodeChars ("abcab".toList))) :=
  C6_search_results_sorted_segment_complete.2.2.1
    (encodeChars ("ab".toList)) (TextBuffer.fromData (encodeChars ("abcab".toList)))
    (encodeChars ("abcab".toList)) 3 (by decide) (by decide) (by decide) (by decide)

/-- Witness for C5: the general delete-word law applied to the scenario's
buffer at its first dispatch (`find_next_word_start` lands at (0,4), the
removal range is (0,0)–(0,3)). -/
theorem C5_delete_word_spares_landing_char_witness :
    ((executeCmd
        { buffers := [TextBuffer.fromData (encodeChars ("foo bar\nbaz\n".toList))],
          cursors := [CursorPos.new 0], current_buffer := 0, search_results := [],
          command_bar_input := [], visual_range_anchor := ⟨0, 0⟩,
          motion := ⟨some Action.Delete, some Object.Word, none⟩, mode := EditorMode.Normal }
        { io := { chars := [], special_keys := [] }, cmd_bar_cursor_x := 0,
          start_line := 0, maxRowsVal := 40, should_quit := false }).1.buffers.getD 0
        (TextBuffer.fromData [])).chars.logical
      = encodeChars ("bar\nbaz\n".toList) := by
  have h := (C5_delete_word_spares_landing_char.1
    { buffers := [TextBuffer.fromData (encodeChars ("foo bar\nbaz\n".toList))],
      cursors := [CursorPos.new 0], current_buffer := 0, search_results := [],
      command_bar_input := [], visual_range_anchor := ⟨0, 0⟩,
      motion := ⟨some Action.Delete, some Object.Word, none⟩, mode := EditorMode.Normal }
    { io := { chars := [], special_keys := [] }, cmd_bar_cursor_x := 0,
      start_line := 0, maxRowsVal := 40, should_quit := false }
    (TextBuffer.fromData (encodeChars ("foo bar\nbaz\n".toList)))
    (CursorPos.new 0) ⟨0, 4⟩ rfl rfl rfl (by decide)).1
  rw [h]
  decide

end Moded
